import Mathlib

/-!
# Dozzle log endpoints: historical range search and live multiplexer

A shallow embedding of `internal/web/logs.go` (the handlers
`fetchLogsBetweenDates` and `streamLogsForContainers`) together with the
properties of the adaptive backward search, the record filter stages, the
tail-task outcome handling, the backfill rounds and the lifecycle channel.

Instants are integers counting nanoseconds since the Unix epoch; a
`time.Duration` is an int64 count of nanoseconds, so arithmetic on durations
wraps modulo `2 ^ 64`.
-/

namespace Dozzle

/-! ## Durations and instants -/

/-- Two's-complement wrap of an integer into the int64 range: the value Go
stores after arithmetic on a `time.Duration`. -/
def wrap64 (x : Int) : Int := (x + 2 ^ 63) % 2 ^ 64 - 2 ^ 63

/-- Largest `time.Duration`. -/
def maxDuration : Int := 2 ^ 63 - 1

/-- Smallest `time.Duration`. -/
def minDuration : Int := -(2 ^ 63)

/-- The constant `time.Second`, in nanoseconds. -/
def Second : Int := 1000000000

/-- The constant `time.Millisecond`, in nanoseconds. -/
def Millisecond : Int := 1000000

/-- The method `t.Sub(u)` of `time.Time`: the difference, saturated to the
range of a duration. -/
def timeSub (t u : Int) : Int :=
  if t - u > maxDuration then maxDuration
  else if t - u < minDuration then minDuration
  else t - u

/-- The method `t.Add(d)` of `time.Time`. -/
def timeAdd (t d : Int) : Int := t + d

/-- The zero value `time.Time{}`: January 1 of year 1, 00:00 UTC. -/
def zeroTime : Int := -62135596800 * 1000000000

/-! ## Data model -/

/-- Modelled from the spec: the payload of a log record, whose declaration
(`docker.LogEvent.Message`) is outside the handlers' file. It is either an
opaque text line (a Go `string`) or a structured, parsed value. -/
inductive Payload where
  | text (line : String)
  | complex (value : String)
  deriving DecidableEq, Repr

/-- Modelled from the spec: the log record `docker.LogEvent`, whose declaration
is outside the handlers' file: identifier, timestamp, severity level and
payload. -/
structure LogEvent where
  Id : Nat
  Timestamp : Int
  Level : String
  Message : Payload
  deriving DecidableEq, Repr

/-- Modelled from the spec: the source descriptor `docker.Container`, whose
declaration is outside the handlers' file. -/
structure Container where
  ID : String
  Host : String
  Created : Int
  StartedAt : Int
  deriving DecidableEq, Repr

/-- The lifecycle notification `docker.ContainerEvent`, with the three fields
the handlers set. -/
structure ContainerEvent where
  ActorID : String
  Name : String
  Host : String
  deriving DecidableEq, Repr

/-- A compiled regular expression, seen through `search.Search(regex, event)`:
the set of records it matches. -/
structure Regexp where
  Search : LogEvent → Bool

/-- The constant `docker.STDOUT`. -/
def STDOUT : Nat := 1

/-- The constant `docker.STDERR`. -/
def STDERR : Nat := 2

/-! ## Bounded record buffer -/

/-- Modelled from the spec: the ring buffer `utils.RingBuffer`, whose code is
outside the handlers' file. It has a fixed capacity `Size` and keeps its
contents in insertion order. -/
structure RingBuffer (α : Type) where
  Size : Nat
  data : List α

namespace RingBuffer

/-- Modelled from the spec: `utils.NewRingBuffer(size)`, an empty buffer of the
given capacity. -/
def new (α : Type) (size : Nat) : RingBuffer α := ⟨size, []⟩

/-- Modelled from the spec: `Push` appends, evicting the oldest record when the
buffer is at capacity. -/
def Push {α : Type} (b : RingBuffer α) (x : α) : RingBuffer α :=
  if b.data.length ≥ b.Size then ⟨b.Size, b.data.drop 1 ++ [x]⟩
  else ⟨b.Size, b.data ++ [x]⟩

/-- Modelled from the spec: `Clear` resets the length to zero and keeps the
capacity. -/
def Clear {α : Type} (b : RingBuffer α) : RingBuffer α := ⟨b.Size, []⟩

/-- Modelled from the spec: `Len`, the current number of records. -/
def Len {α : Type} (b : RingBuffer α) : Nat := b.data.length

/-- Modelled from the spec: `Data`, the ordered copy of the current
contents. -/
def Data {α : Type} (b : RingBuffer α) : List α := b.data

end RingBuffer

/-! ## Parsing of numeric parameters -/

/-- The value of a non-empty string of decimal digits. -/
def digitsValue (cs : List Char) : Option Nat :=
  if cs = [] then none
  else if cs.all Char.isDigit then
    some (cs.foldl (fun n c => 10 * n + (c.toNat - 48)) 0)
  else none

/-- The function `strconv.Atoi`: an optional sign followed by decimal digits,
within the range of a 64-bit `int`. -/
def Atoi (s : String) : Option Int :=
  let cs := s.toList
  let signed : Bool × List Char :=
    match cs with
    | '-' :: r => (true, r)
    | '+' :: r => (false, r)
    | _ => (false, cs)
  match digitsValue signed.2 with
  | none => none
  | some n =>
    let v : Int := if signed.1 then -(n : Int) else (n : Int)
    if v < -(2 ^ 63) ∨ v > 2 ^ 63 - 1 then none else some v

/-- The call `strconv.ParseUint(s, 10, 32)`: decimal digits only, value below
`2 ^ 32`. -/
def ParseUint32 (s : String) : Option Nat :=
  match digitsValue s.toList with
  | none => none
  | some n => if n < 2 ^ 32 then some n else none

/-! ## The historical-range handler `fetchLogsBetweenDates` -/

/-- The query parameters of a request. `from_` and `to_` are the results of
`time.Parse`, whose error the handler discards (the zero time on failure);
the flags record `Query().Has(..)`, the optional strings `Query().Get(..)`
of a present parameter, and `levels` the repeated `levels` values. -/
structure Request where
  from_ : Int
  to_ : Int
  stdout : Bool
  stderr : Bool
  filter : Option String
  jsonOnly : Bool
  everything : Bool
  minimum : Option String
  levels : List String
  lastSeenId : Option String

/-- The collaborators of the handler: the result of the source lookup
`FindContainer(hostKey(r), id, usersFilter)`, the regular expression parser
`search.ParseRegex`, the historical fetch `LogsBetweenDates(ctx, from, to,
stdTypes)` of the found source, and the clock `time.Now()`. -/
structure Env where
  FindContainer : Except String Container
  ParseRegex : String → Except String Regexp
  LogsBetweenDates : Int → Int → Nat → Except String (List LogEvent)
  Now : Int

/-- The calls the handler makes on its collaborators, in order. -/
inductive Effect where
  | lookup
  | query (from_ to_ : Int)
  deriving DecidableEq, Repr

/-- The outcome of a request: the HTTP status, the records written to the
body in order, and the collaborator calls made. -/
structure Response where
  status : Nat
  body : List LogEvent
  effects : List Effect
  deriving DecidableEq, Repr

/-- The local variables of the handler that stay fixed during the search
loop. -/
structure Params where
  stdTypes : Nat
  regex : Option Regexp
  onlyComplex : Bool
  everything : Bool
  minimum : Int
  levels : List String
  lastSeenId : Nat
  to_ : Int
  Created : Int

/-- The type assertion `event.Message.(string)`. -/
def Payload.isString : Payload → Bool
  | .text _ => true
  | .complex _ => false

/-- The lookup `levels[level]` in the set built from the `levels`
parameters. -/
def levelAllowed (levels : List String) (level : String) : Bool :=
  levels.contains level

/-- What the body of the inner loop does with one record. -/
inductive Verdict where
  | encode
  | skip
  | stop
  | push
  deriving DecidableEq, Repr

/-- The body of the inner `for event := range events` loop of the handler:
`encode` writes the record to the response at once, `skip` is `continue`,
`stop` is `break`, `push` is `buffer.Push(event)`. -/
def scanEvent (p : Params) (event : LogEvent) : Verdict :=
  if p.everything then .encode
  else if p.onlyComplex && event.Message.isString then .skip
  else if (match p.regex with
           | some regex => !regex.Search event
           | none => false) then .skip
  else if !levelAllowed p.levels event.Level then .skip
  else if p.lastSeenId != 0 && event.Id == p.lastSeenId then .stop
  else .push

/-- The inner `for event := range events` loop of the handler: `out` collects
what is encoded directly to the response, `buffer` what is pushed. -/
def scanEvents (p : Params) :
    List LogEvent → RingBuffer LogEvent → List LogEvent → RingBuffer LogEvent × List LogEvent
  | [], buffer, out => (buffer, out)
  | event :: rest, buffer, out =>
    match scanEvent p event with
    | .encode => scanEvents p rest buffer (out ++ [event])
    | .skip => scanEvents p rest buffer out
    | .stop => (buffer, out)
    | .push => scanEvents p rest (buffer.Push event) out

/-- The outer `for` loop of the handler. `fuel` bounds the number of
iterations; `none` means the bound was reached before the loop ended. -/
def fetchLoop (env : Env) (p : Params) :
    Nat → RingBuffer LogEvent → Int → Int → List LogEvent → List Effect → Option Response
  | 0, _, _, _, _, _ => none
  | fuel + 1, buffer, from_, delta, out, effects =>
    if (buffer.Len : Int) > p.minimum then
      some ⟨200, out ++ buffer.Data, effects⟩
    else
      match env.LogsBetweenDates from_ p.to_ p.stdTypes with
      | .error _ => some ⟨500, out, effects ++ [.query from_ p.to_]⟩
      | .ok events =>
        let scanned := scanEvents p events buffer.Clear out
        if p.everything || decide (from_ < p.Created) then
          some ⟨200, scanned.2 ++ scanned.1.Data, effects ++ [.query from_ p.to_]⟩
        else
          fetchLoop env p fuel scanned.1 (timeAdd from_ (wrap64 (-delta)))
            (wrap64 (delta * 2)) scanned.2 (effects ++ [.query from_ p.to_])

/-- The stream selector built from the `stdout` and `stderr` flags. -/
def stdTypesOf (r : Request) : Nat :=
  (if r.stdout then STDOUT else 0) ||| (if r.stderr then STDERR else 0)

/-- The `filter` parameter: no regular expression when absent, else the result
of `search.ParseRegex`. -/
def parseFilter (env : Env) (r : Request) : Except String (Option Regexp) :=
  match r.filter with
  | some f => (env.ParseRegex f).map some
  | none => .ok none

/-- The `minimum` parameter: 0 when absent, else `strconv.Atoi` followed by the
check `minimum < 0 || minimum > buffer.Size`; `none` stands for either
error. -/
def parseMinimum (r : Request) (size : Nat) : Option Int :=
  match r.minimum with
  | some m =>
    match Atoi m with
    | none => none
    | some v => if v < 0 ∨ v > (size : Int) then none else some v
  | none => some 0

/-- The `lastSeenId` parameter: 0 and the unchanged window end when absent,
else the window end moved by 50ms and the result of `strconv.ParseUint`. -/
def parseLastSeenId (r : Request) (to_ : Int) : Option (Nat × Int) :=
  match r.lastSeenId with
  | some s => (ParseUint32 s).map (fun n => (n, timeAdd to_ (50 * Millisecond)))
  | none => some (0, to_)

/-- The window end after the `everything` override. -/
def windowEnd (env : Env) (r : Request) : Int :=
  if r.everything then env.Now else r.to_

/-- The window start after the `everything` override. -/
def windowStart (r : Request) : Int :=
  if r.everything then zeroTime else r.from_

/-- The initial widening step `max(to.Sub(from), time.Second*3)`. -/
def initialDelta (r : Request) : Int :=
  max (timeSub r.to_ r.from_) (Second * 3)

/-- The handler `fetchLogsBetweenDates`. -/
def fetchLogsBetweenDates (env : Env) (fuel : Nat) (r : Request) : Option Response :=
  let stdTypes := stdTypesOf r
  if stdTypes = 0 then some ⟨400, [], []⟩
  else
    match env.FindContainer with
    | .error _ => some ⟨404, [], [.lookup]⟩
    | .ok container =>
      let buffer := RingBuffer.new LogEvent 500
      let delta := initialDelta r
      match parseFilter env r with
      | .error _ => some ⟨400, [], [.lookup]⟩
      | .ok regex =>
        match parseMinimum r buffer.Size with
        | none => some ⟨400, [], [.lookup]⟩
        | some minimum =>
          match parseLastSeenId r (windowEnd env r) with
          | none => some ⟨400, [], [.lookup]⟩
          | some (lastSeenId, to_) =>
            fetchLoop env
              ⟨stdTypes, regex, r.jsonOnly, r.everything, minimum, r.levels, lastSeenId, to_,
                container.Created⟩
              fuel buffer (windowStart r) delta [] [.lookup]

/-- Modelled from the spec: the historical fetch of a source holding
`records` in chronological order, `fetchBetween(host, sourceId, from, to,
selector)`, whose code is outside the handlers' file: the records of the
window `[from, to)`, in order. -/
def sourceLogsBetweenDates (records : List LogEvent) (from_ to_ : Int) : List LogEvent :=
  records.filter (fun e => decide (from_ ≤ e.Timestamp) && decide (e.Timestamp < to_))

/-! ## The live handler `streamLogsForContainers` -/
/-- The error a tail task gets back from `StreamLogs`, seen through the two
tests the handler makes on it: `errors.Is(err, io.EOF)` and
`errors.Is(err, context.Canceled)`. -/
structure StreamError where
  isEOF : Bool
  isCanceled : Bool
  text : String
  deriving DecidableEq, Repr

/-- What a tail task does after `StreamLogs` returns: write a log line or send
a notification on the channel `events`. -/
inductive TailAction where
  | logError (msg : String)
  | logDebug (msg : String)
  | send (event : ContainerEvent)
  deriving DecidableEq, Repr

/-- The closure `streamLogs` of the live handler, from the point where its two
calls return: `found` is the result of `FindContainer` and `result` the error
of `StreamLogs` (`none` for `nil`). -/
def streamLogs (container : Container) (found : Except String Unit)
    (result : Option StreamError) : List TailAction :=
  match found with
  | .error _ => [.logError "error while finding container"]
  | .ok _ =>
    match result with
    | none => []
    | some err =>
      if err.isEOF then
        [.logDebug "streaming ended",
         .send ⟨container.ID, "container-stopped", container.Host⟩]
      else if !err.isCanceled then
        [.logError "unknown error while streaming logs"]
      else []

/-- The notifications a list of tail actions sends on `events`. -/
def sentEvents : List TailAction → List ContainerEvent
  | [] => []
  | .send ev :: rest => ev :: sentEvents rest
  | _ :: rest => sentEvents rest

/-- The `case logEvent := <-liveLogs` branch of the live loop: the record
written with `sseWriter.Message`, or `none` after `continue`. -/
def liveLogCase (regex : Option Regexp) (levels : List String) (logEvent : LogEvent) :
    Option LogEvent :=
  if (match regex with
      | some regex => !regex.Search logEvent
      | none => false) then none
  else if !levelAllowed levels logEvent.Level then none
  else some logEvent

/-- The inner `for log := range logs` loop of the backfill task. -/
def backfillScan (levels : List String) (regex : Regexp) :
    List LogEvent → List LogEvent → List LogEvent
  | [], events => events
  | log :: rest, events =>
    if !levelAllowed levels log.Level then backfillScan levels regex rest events
    else if regex.Search log then backfillScan levels regex rest (events ++ [log])
    else backfillScan levels regex rest events

/-- The collaborators of the backfill task: the known sources
`existingContainers`, the lookup `FindContainer(container.Host, container.ID,
usersFilter)` giving the descriptor of the found source, its historical
fetch `LogsBetweenDates(ctx, from, to, stdTypes)`, and the library call
`sort.Slice(events, less)` with `less` comparing timestamps. Go's `sort.Slice`
is not stable and leaves the order among equal timestamps open, so the call is
taken as it is given. -/
structure LiveEnv where
  existingContainers : List Container
  FindContainer : Container → Except String Container
  LogsBetweenDates : Container → Int → Int → Nat → Except String (List LogEvent)
  sortSlice : List LogEvent → List LogEvent

/-- One historical fetch of the backfill task: the source and the window. -/
structure WindowQuery where
  container : Container
  from_ : Int
  to_ : Int
  deriving DecidableEq, Repr

/-- The variables of one backfill round while it walks the known sources. -/
structure RoundState where
  events : List LogEvent
  stillRunning : Bool
  queries : List WindowQuery

/-- The `for _, container := range existingContainers` loop of one backfill
round; `none` stands for the `return` after an error. -/
def backfillContainers (env : LiveEnv) (levels : List String) (regex : Regexp) (stdTypes : Nat)
    (to_ delta : Int) : List Container → RoundState → Option RoundState
  | [], st => some st
  | container :: rest, st =>
    match env.FindContainer container with
    | .error _ => none
    | .ok found =>
      if to_ < found.Created then
        backfillContainers env levels regex stdTypes to_ delta rest st
      else
        match env.LogsBetweenDates container (timeAdd to_ delta) to_ stdTypes with
        | .error _ => none
        | .ok logs =>
          backfillContainers env levels regex stdTypes to_ delta rest
            ⟨backfillScan levels regex logs st.events, true,
              st.queries ++ [⟨container, timeAdd to_ delta, to_⟩]⟩

/-- A backfill round that ran to completion: the window end and step it
started with, the fetches it made, and the batch it sent on the channel
`backfill`, if any. -/
structure Round where
  to_ : Int
  delta : Int
  queries : List WindowQuery
  sent : Option (List LogEvent)
  deriving DecidableEq, Repr

/-- The end of a round, `if len(events) > 0 { backfill <- events }`: the batch
sent on the channel `backfill`, if any. -/
def sendIfAny (events : List LogEvent) : Option (List LogEvent) :=
  if events.length > 0 then some events else none

/-- The `for minimum > 0` loop of the backfill task, as the list of the rounds
it completes within `fuel` iterations. -/
def backfillLoop (env : LiveEnv) (levels : List String) (regex : Regexp) (stdTypes : Nat) :
    Nat → Int → Int → Int → List Round
  | 0, _, _, _ => []
  | fuel + 1, minimum, delta, to_ =>
    if minimum > 0 then
      match backfillContainers env levels regex stdTypes to_ delta env.existingContainers
          ⟨[], false, []⟩ with
      | none => []
      | some st =>
        if !st.stillRunning then []
        else
          ⟨to_, delta, st.queries, sendIfAny (env.sortSlice st.events)⟩ ::
            backfillLoop env levels regex stdTypes fuel (minimum - st.events.length)
              (wrap64 (delta * 2)) (timeAdd to_ delta)
    else []

/-- The backfill task of a live session started at `absoluteTime`:
`minimum := 50`, `delta := -10 * time.Second`, `to := absoluteTime`. -/
def backfillTask (env : LiveEnv) (levels : List String) (regex : Regexp) (stdTypes : Nat)
    (absoluteTime : Int) (fuel : Nat) : List Round :=
  backfillLoop env levels regex stdTypes fuel 50 (-10 * Second) absoluteTime

/-- What the coordinator writes to the event stream. -/
inductive Written where
  | ping
  | message (logEvent : LogEvent)
  | containerEvent (event : ContainerEvent)
  | logsBackfill (batch : List LogEvent)
  deriving DecidableEq, Repr

/-- The state of a live session, as far as the channel `events` (capacity 1)
is concerned: the notifications buffered in the channel, the source whose
`container-started` notification the coordinator is in the middle of sending
(it is then inside the `newContainers` branch, not at the `select`), the
sources for which a tail task was started, what was written to the stream, and
whether the loop has been left. -/
structure Session where
  events : List ContainerEvent
  sending : Option Container
  tails : List Container
  written : List Written
  closed : Bool
  deriving DecidableEq, Repr

/-- The steps of a live session: a tail task whose `StreamLogs` returned
`result` finishing (its send on `events`, if it makes one, completed), the
branches of the coordinator's `select`, and the completion of the
coordinator's own send. -/
inductive Move where
  | tailEnd (container : Container) (result : Option StreamError)
  | liveLog (logEvent : LogEvent)
  | newContainer (container : Container) (found : Bool)
  | sendStarted
  | recvEvent
  | backfill (batch : List LogEvent)
  | tick
  | cancel
  deriving DecidableEq, Repr

/-- The capacity of the channel `events`, from `make(chan *docker.ContainerEvent, 1)`. -/
def eventsCapacity : Nat := 1

/-- One step of a live session; `none` when the step cannot be taken in the
state: a send on `events` needs room in the channel, a branch of the `select`
needs the coordinator to be at the `select`, and the receive from `events`
needs a buffered notification. -/
def step (regex : Option Regexp) (levels : List String) (s : Session) : Move → Option Session
  | .tailEnd container result =>
    match sentEvents (streamLogs container (.ok ()) result) with
    | [] => some s
    | sent =>
      if s.events.length + sent.length ≤ eventsCapacity then
        some { s with events := s.events ++ sent }
      else none
  | .liveLog logEvent =>
    if s.sending.isSome || s.closed then none
    else
      match liveLogCase regex levels logEvent with
      | some e => some { s with written := s.written ++ [.message e] }
      | none => some s
  | .newContainer container found =>
    if s.sending.isSome || s.closed then none
    else if found then some { s with sending := some container }
    else some s
  | .sendStarted =>
    match s.sending with
    | none => none
    | some container =>
      if s.events.length < eventsCapacity then
        some { s with
          events := s.events ++ [⟨container.ID, "container-started", container.Host⟩],
          sending := none,
          tails := s.tails ++ [container] }
      else none
  | .recvEvent =>
    if s.sending.isSome || s.closed then none
    else
      match s.events with
      | [] => none
      | event :: rest =>
        some { s with events := rest, written := s.written ++ [.containerEvent event] }
  | .backfill batch =>
    if s.sending.isSome || s.closed then none
    else some { s with written := s.written ++ [.logsBackfill batch] }
  | .tick =>
    if s.sending.isSome || s.closed then none
    else some { s with written := s.written ++ [.ping] }
  | .cancel =>
    if s.sending.isSome || s.closed then none
    else some { s with closed := true }

/-- A sequence of steps from a state; `none` when one of them cannot be
taken. -/
def run (regex : Option Regexp) (levels : List String) : Session → List Move → Option Session
  | s, [] => some s
  | s, m :: rest =>
    match step regex levels s m with
    | none => none
    | some s2 => run regex levels s2 rest

/-- The session when the loop is entered: a tail task per known source, the
first ping written, nothing buffered in `events`. -/
def initialSession (existingContainers : List Container) : Session :=
  ⟨[], none, existingContainers, [.ping], false⟩

/-! ## Vocabulary of the statements -/

/-- A record passes the structured-only, regular-expression and level stages
of the historical handler. -/
def passesFilters (onlyComplex : Bool) (regex : Option Regexp) (levels : List String)
    (event : LogEvent) : Bool :=
  !(onlyComplex && event.Message.isString) &&
  (match regex with
   | some regex => regex.Search event
   | none => true) &&
  levelAllowed levels event.Level

/-- The last `n` elements of a list. -/
def lastN {α : Type} (n : Nat) (l : List α) : List α := l.drop (l.length - n)

/-- The number of source queries among the collaborator calls. -/
def queryCount (effects : List Effect) : Nat :=
  (effects.filter (fun e => e != .lookup)).length

/-- The records of a batch that the inner loop pushes when the request is not
in `everything` mode: those with verdict `push` that come before the first
record with verdict `stop`. -/
def kept (p : Params) (events : List LogEvent) : List LogEvent :=
  (events.takeWhile (fun e => scanEvent p e != .stop)).filter (fun e => scanEvent p e == .push)

/-- The windows queried by the first `k` iterations of the search loop that
starts at `from_` with step `delta`. -/
def wideningQueries (from_ delta to_ : Int) (k : Nat) : List Effect :=
  (List.range k).map (fun j => Effect.query (from_ - delta * (2 ^ j - 1)) to_)

/-- The loop parameters the handler builds from a request whose parameters
parsed to `regex`, `minimum`, `lastSeenId` and the window end `to_`, for a
source created at `created`. -/
def searchParams (r : Request) (regex : Option Regexp) (minimum : Int) (lastSeenId : Nat)
    (to_ : Int) (created : Int) : Params :=
  ⟨stdTypesOf r, regex, r.jsonOnly, r.everything, minimum, r.levels, lastSeenId, to_, created⟩

/-- The records of a source that lie before the window end `to_` and pass the
structured-only, regular-expression and level stages. -/
def qualifying (records : List LogEvent) (to_ : Int) (onlyComplex : Bool)
    (regex : Option Regexp) (levels : List String) : List LogEvent :=
  records.filter (fun e => decide (e.Timestamp < to_) && passesFilters onlyComplex regex levels e)

/-- The window end the handler queries: `to` (or the clock in `everything`
mode), moved by 50ms when `lastSeenId` is given. -/
def queriedEnd (env : Env) (r : Request) : Int :=
  if r.lastSeenId.isSome then timeAdd (windowEnd env r) (50 * Millisecond) else windowEnd env r

/-- The batch prefix that precedes the first record passing the filters and
carrying the cursor id `n`. -/
def beforeCursor (onlyComplex : Bool) (regex : Option Regexp) (levels : List String) (n : Nat)
    (events : List LogEvent) : List LogEvent :=
  events.takeWhile (fun e => !(passesFilters onlyComplex regex levels e && e.Id == n))

/-- The bound on the number of source queries as the specification words it:
`ceil(log2(elapsed / initial_delta)) + 1`. -/
def specLoopBound (elapsed delta : Int) : Nat :=
  Nat.clog 2 ((elapsed + delta - 1) / delta).toNat + 1

/-- The fetches a round with window end `to_` and step `delta` makes: one for
every known source whose creation is not after `to_`. -/
def roundQueries (env : LiveEnv) (to_ delta : Int) : List Container → List WindowQuery
  | [] => []
  | container :: rest =>
    match env.FindContainer container with
    | .error _ => roundQueries env to_ delta rest
    | .ok found =>
      if to_ < found.Created then roundQueries env to_ delta rest
      else ⟨container, to_ + delta, to_⟩ :: roundQueries env to_ delta rest

/-- The records of the given windows whose level is in the allow-set and which
match the regular expression, in the order of the fetches. -/
def roundMatches (env : LiveEnv) (levels : List String) (regex : Regexp) (stdTypes : Nat) :
    List WindowQuery → List LogEvent
  | [] => []
  | q :: rest =>
    (match env.LogsBetweenDates q.container q.from_ q.to_ stdTypes with
     | .error _ => []
     | .ok logs => logs.filter (fun e => levelAllowed levels e.Level && regex.Search e)) ++
      roundMatches env levels regex stdTypes rest

/-- The batch a round sends, from the fetches it made. -/
def roundBatch (env : LiveEnv) (levels : List String) (regex : Regexp) (stdTypes : Nat)
    (queries : List WindowQuery) : Option (List LogEvent) :=
  sendIfAny (env.sortSlice (roundMatches env levels regex stdTypes queries))

/-! ## Concrete sources and requests -/

/-- A source descriptor created at the given instant. -/
def demoContainer (created : Int) : Container := ⟨"c1", "host1", created, created⟩

/-- A second source descriptor, created at instant 0. -/
def otherContainer : Container := ⟨"c2", "host1", 0, 0⟩

/-- An `info` text record with the given id, stamped `id` seconds. -/
def infoRecord (id : Nat) : LogEvent := ⟨id, (id : Int) * Second, "info", .text "line"⟩

/-- The first ten `info` records, stamped 1s to 10s. -/
def tenRecords : List LogEvent := (List.range 10).map (fun i => infoRecord (i + 1))

/-- A concrete set of collaborators: the lookup finds a source created at
`created` and holding `records`, the pattern `(` is malformed and every other
pattern matches the records whose payload is not the text `noise`. -/
def demoEnv (records : List LogEvent) (created : Int) : Env :=
  ⟨.ok (demoContainer created),
   fun pat => if pat = "(" then .error "missing closing )"
     else .ok ⟨fun e => e.Message != .text "noise"⟩,
   fun f t _ => .ok (sourceLogsBetweenDates records f t),
   1000 * Second⟩

/-- Collaborators whose source lookup fails; the pattern `(` is malformed. -/
def missingEnv : Env :=
  ⟨.error "container not found",
   fun pat => if pat = "(" then .error "missing closing )" else .ok ⟨fun _ => true⟩,
   fun _ _ _ => .ok [],
   1000 * Second⟩

/-- A request for the window `[from_, to_)` on `stdout` with the given
`minimum` and `levels`, and no other parameter. -/
def plainRequest (from_ to_ : Int) (minimum : Option String) (levels : List String) : Request :=
  ⟨from_, to_, true, false, none, false, false, minimum, levels, none⟩

/-- A request for `[0, 0)` on `stdout` with both `jsonOnly` and `everything`
set. -/
def everythingRequest : Request :=
  ⟨0, 0, true, false, none, true, true, none, [], none⟩

/-- A request for `[from_, to_)` on `stdout` for level `info` with the given
`lastSeenId` and no other parameter. -/
def cursorRequest (from_ to_ : Int) (lastSeenId : String) : Request :=
  ⟨from_, to_, true, false, none, false, false, none, ["info"], some lastSeenId⟩

/-- A request on `stdout` with the given `filter`, `minimum` and
`lastSeenId`. -/
def paramRequest (filter minimum lastSeenId : Option String) : Request :=
  ⟨0, 5 * Second, true, false, filter, false, false, minimum, ["info"], lastSeenId⟩

/-- The creation instant 2023-11-14T22:13:20Z of the source of the overflow
example. -/
def overflowCreated : Int := 1700000000 * Second

/-- A request on `stdout` for level `info` whose window starts `3 * 2 ^ 62` ns
after `overflowCreated` (2462-04-14T21:54:15.282163712Z) and is `2 ^ 62` ns
long (it ends 2608-06-04T21:47:53.709551616Z), with no other parameter. -/
def overflowRequest : Request :=
  plainRequest (overflowCreated + 3 * 2 ^ 62) (overflowCreated + 4 * 2 ^ 62) none ["info"]

/-- An end-of-data error (`io.EOF`). -/
def eofError : StreamError := ⟨true, false, "EOF"⟩

/-- An error that is neither end-of-data nor a cancellation. -/
def resetError : StreamError := ⟨false, false, "connection reset by peer"⟩

/-- One function that `sort.Slice` with the timestamp comparison may be: an
insertion sort, which keeps records with equal timestamps in their original
order. It serves the concrete backfill tasks below. -/
def sortByTimestamp (events : List LogEvent) : List LogEvent :=
  events.insertionSort (fun a b => a.Timestamp ≤ b.Timestamp)

/-- The collaborators of a backfill task over one known source, created at
instant 0 and holding the ten `info` records stamped 1s to 10s. -/
def demoLiveEnv : LiveEnv :=
  ⟨[demoContainer 0], fun c => .ok c,
   fun _ f t _ => .ok (sourceLogsBetweenDates tenRecords f t), sortByTimestamp⟩

/-- A source descriptor whose creation instant is the zero time. -/
def zeroSource : Container := ⟨"c0", "host1", zeroTime, zeroTime⟩

/-- The collaborators of a backfill task over the one known source
`zeroSource`, which is found, holds no record and answers every fetch. -/
def zeroSourceEnv : LiveEnv :=
  ⟨[zeroSource], fun c => .ok c, fun _ _ _ _ => .ok [], sortByTimestamp⟩

/-- The start instant 2026-11-02T00:51:27Z of the backfill task over
`zeroSource`. -/
def overflowNow : Int := 1793580687 * Second

/-- A regular expression that matches the records with an even id. -/
def evenIds : Regexp := ⟨fun e => e.Id % 2 == 0⟩

/-- The second round of the backfill task of `demoLiveEnv` started at 25s. -/
def demoRound : Round :=
  ⟨15 * Second, -20 * Second, [⟨demoContainer 0, -5 * Second, 15 * Second⟩],
   some [infoRecord 2, infoRecord 4, infoRecord 6, infoRecord 8, infoRecord 10]⟩

/-! ## Auxiliary lemmas -/

theorem wrap64_of_range (x : Int) (h1 : -(2 ^ 63) ≤ x) (h2 : x < 2 ^ 63) : wrap64 x = x := by
  unfold wrap64
  rw [Int.emod_eq_of_lt (by omega) (by omega)]
  omega

theorem RingBuffer.push_size {α : Type} (b : RingBuffer α) (x : α) : (b.Push x).Size = b.Size := by
  unfold RingBuffer.Push
  split <;> rfl

theorem RingBuffer.foldl_push {α : Type} (xs : List α) :
    ∀ b : RingBuffer α, 0 < b.Size → b.data.length ≤ b.Size →
      (xs.foldl RingBuffer.Push b).Size = b.Size ∧
      (xs.foldl RingBuffer.Push b).data = lastN b.Size (b.data ++ xs) := by
  induction xs with
  | nil =>
    intro b _ hle
    simp [lastN, Nat.sub_eq_zero_of_le hle]
  | cons x xs ih =>
    intro b hpos hle
    have hsz := RingBuffer.push_size b x
    have hlen : (b.Push x).data.length ≤ (b.Push x).Size := by
      unfold RingBuffer.Push
      split
      · simp; omega
      · simp; omega
    obtain ⟨h1, h2⟩ := ih (b.Push x) (by rw [hsz]; exact hpos) hlen
    refine ⟨by simpa [hsz] using h1, ?_⟩
    simp only [List.foldl_cons]
    rw [h2, hsz]
    unfold RingBuffer.Push lastN
    split
    · have : b.data.length = b.Size := by omega
      simp only [List.append_assoc, List.singleton_append, List.length_append, List.length_drop,
        List.length_cons]
      rw [← List.drop_append_of_le_length (by omega), List.drop_drop]
      congr 1
      omega
    · simp

theorem scanEvent_ne_encode (p : Params) (h : p.everything = false) (e : LogEvent) :
    scanEvent p e ≠ .encode := by
  unfold scanEvent
  rw [h]
  simp only [Bool.false_eq_true, if_false]
  split_ifs <;> simp

theorem scanEvents_eq (p : Params) (h : p.everything = false) (events : List LogEvent) :
    ∀ (buffer : RingBuffer LogEvent) (out : List LogEvent),
      scanEvents p events buffer out = ((kept p events).foldl RingBuffer.Push buffer, out) := by
  induction events with
  | nil => intro buffer out; rfl
  | cons e rest ih =>
    intro buffer out
    have hne := scanEvent_ne_encode p h e
    unfold scanEvents kept
    cases hv : scanEvent p e with
    | encode => exact absurd hv hne
    | skip =>
      simp only [List.takeWhile_cons, hv]
      simpa [kept, hv] using ih buffer out
    | stop => simp [hv]
    | push =>
      simp only [List.takeWhile_cons, hv]
      simpa [kept, hv] using ih (buffer.Push e) out

theorem scanEvents_everything (p : Params) (h : p.everything = true) (events : List LogEvent) :
    ∀ (buffer : RingBuffer LogEvent) (out : List LogEvent),
      scanEvents p events buffer out = (buffer, out ++ events) := by
  induction events with
  | nil => intro buffer out; simp [scanEvents]
  | cons e rest ih =>
    intro buffer out
    have hv : scanEvent p e = .encode := by simp [scanEvent, h]
    unfold scanEvents
    simp only [hv]
    rw [ih]
    simp

theorem scanEvent_push_iff (p : Params) (h : p.everything = false) (e : LogEvent) :
    scanEvent p e = .push ↔
      passesFilters p.onlyComplex p.regex p.levels e = true ∧
        ¬ (p.lastSeenId ≠ 0 ∧ e.Id = p.lastSeenId) := by
  unfold scanEvent passesFilters
  rw [h]
  cases p.onlyComplex <;> cases e.Message.isString <;> cases p.regex <;>
    simp <;> split_ifs <;> simp_all

theorem scanEvent_stop_iff (p : Params) (h : p.everything = false) (e : LogEvent) :
    scanEvent p e = .stop ↔
      passesFilters p.onlyComplex p.regex p.levels e = true ∧
        (p.lastSeenId ≠ 0 ∧ e.Id = p.lastSeenId) := by
  unfold scanEvent passesFilters
  rw [h]
  cases p.onlyComplex <;> cases e.Message.isString <;> cases p.regex <;>
    simp <;> split_ifs <;> simp_all

theorem fetchLoop_zero (env : Env) (p : Params) (buffer : RingBuffer LogEvent)
    (from_ delta : Int) (out : List LogEvent) (effects : List Effect) :
    fetchLoop env p 0 buffer from_ delta out effects = none := rfl

theorem fetchLoop_break (env : Env) (p : Params) (fuel : Nat) (buffer : RingBuffer LogEvent)
    (from_ delta : Int) (out : List LogEvent) (effects : List Effect)
    (h : (buffer.Len : Int) > p.minimum) :
    fetchLoop env p (fuel + 1) buffer from_ delta out effects =
      some ⟨200, out ++ buffer.Data, effects⟩ := by
  simp [fetchLoop, h]

theorem fetchLoop_error (env : Env) (p : Params) (fuel : Nat) (buffer : RingBuffer LogEvent)
    (from_ delta : Int) (out : List LogEvent) (effects : List Effect)
    (h : ¬ (buffer.Len : Int) > p.minimum) (err : String)
    (hq : env.LogsBetweenDates from_ p.to_ p.stdTypes = .error err) :
    fetchLoop env p (fuel + 1) buffer from_ delta out effects =
      some ⟨500, out, effects ++ [.query from_ p.to_]⟩ := by
  simp [fetchLoop, h, hq]

theorem fetchLoop_done (env : Env) (p : Params) (fuel : Nat) (buffer : RingBuffer LogEvent)
    (from_ delta : Int) (out : List LogEvent) (effects : List Effect)
    (h : ¬ (buffer.Len : Int) > p.minimum) (events : List LogEvent)
    (hq : env.LogsBetweenDates from_ p.to_ p.stdTypes = .ok events)
    (hd : (p.everything || decide (from_ < p.Created)) = true) :
    fetchLoop env p (fuel + 1) buffer from_ delta out effects =
      some ⟨200, (scanEvents p events buffer.Clear out).2 ++
        (scanEvents p events buffer.Clear out).1.Data, effects ++ [.query from_ p.to_]⟩ := by
  simp only [fetchLoop, h, hq, hd, if_true, if_false]

theorem fetchLoop_widen (env : Env) (p : Params) (fuel : Nat) (buffer : RingBuffer LogEvent)
    (from_ delta : Int) (out : List LogEvent) (effects : List Effect)
    (h : ¬ (buffer.Len : Int) > p.minimum) (events : List LogEvent)
    (hq : env.LogsBetweenDates from_ p.to_ p.stdTypes = .ok events)
    (hd : (p.everything || decide (from_ < p.Created)) = false) :
    fetchLoop env p (fuel + 1) buffer from_ delta out effects =
      fetchLoop env p fuel (scanEvents p events buffer.Clear out).1
        (timeAdd from_ (wrap64 (-delta))) (wrap64 (delta * 2))
        (scanEvents p events buffer.Clear out).2 (effects ++ [.query from_ p.to_]) := by
  simp only [fetchLoop, h, hq, hd, if_false, Bool.false_eq_true]

theorem fetchLoop_mono (env : Env) (p : Params) (fuel : Nat) :
    ∀ (buffer : RingBuffer LogEvent) (from_ delta : Int) (out : List LogEvent)
      (effects : List Effect) (resp : Response),
      fetchLoop env p fuel buffer from_ delta out effects = some resp →
      ∀ k, fetchLoop env p (fuel + k) buffer from_ delta out effects = some resp := by
  induction fuel with
  | zero => intro _ _ _ _ _ _ h; simp [fetchLoop] at h
  | succ n ih =>
    intro buffer from_ delta out effects resp h k
    rw [Nat.add_right_comm]
    by_cases h1 : (buffer.Len : Int) > p.minimum
    · rw [fetchLoop_break _ _ _ _ _ _ _ _ h1] at h ⊢
      exact h
    · cases hq : env.LogsBetweenDates from_ p.to_ p.stdTypes with
      | error err =>
        rw [fetchLoop_error _ _ _ _ _ _ _ _ h1 err hq] at h ⊢
        exact h
      | ok events =>
        cases hd : (p.everything || decide (from_ < p.Created)) with
        | true =>
          rw [fetchLoop_done _ _ _ _ _ _ _ _ h1 events hq hd] at h ⊢
          exact h
        | false =>
          rw [fetchLoop_widen _ _ _ _ _ _ _ _ h1 events hq hd] at h ⊢
          exact ih _ _ _ _ _ _ h k

theorem RingBuffer.foldl_push_size {α : Type} (xs : List α) :
    ∀ b : RingBuffer α, (xs.foldl RingBuffer.Push b).Size = b.Size := by
  induction xs with
  | nil => intro b; rfl
  | cons x xs ih =>
    intro b
    simp only [List.foldl_cons]
    rw [ih, RingBuffer.push_size]

theorem fetchLoop_result (env : Env) (p : Params) (hev : p.everything = false) (fuel : Nat) :
    ∀ (buffer : RingBuffer LogEvent) (from_ delta : Int) (effects : List Effect)
      (resp : Response),
      fetchLoop env p fuel buffer from_ delta [] effects = some resp →
      (resp.status = 500 ∧ resp.body = []) ∨
      (resp.status = 200 ∧ resp.body = buffer.Data ∧ resp.effects = effects ∧
        (buffer.Len : Int) > p.minimum) ∨
      (resp.status = 200 ∧ ∃ f events,
        resp.effects.getLast? = some (.query f p.to_) ∧
        env.LogsBetweenDates f p.to_ p.stdTypes = .ok events ∧
        resp.body = ((kept p events).foldl RingBuffer.Push ⟨buffer.Size, []⟩).Data ∧
        (f < p.Created ∨ p.minimum < (resp.body.length : Int))) := by
  induction fuel with
  | zero => intro _ _ _ _ _ h; simp [fetchLoop] at h
  | succ n ih =>
    intro buffer from_ delta effects resp h
    by_cases h1 : (buffer.Len : Int) > p.minimum
    · rw [fetchLoop_break _ _ _ _ _ _ _ _ h1] at h
      injection h with h
      subst h
      right; left
      simp [h1]
    · cases hq : env.LogsBetweenDates from_ p.to_ p.stdTypes with
      | error err =>
        rw [fetchLoop_error _ _ _ _ _ _ _ _ h1 err hq] at h
        injection h with h
        subst h
        left; simp
      | ok events =>
        have hscan := scanEvents_eq p hev events buffer.Clear []
        cases hd : (p.everything || decide (from_ < p.Created)) with
        | true =>
          rw [fetchLoop_done _ _ _ _ _ _ _ _ h1 events hq hd, hscan] at h
          injection h with h
          subst h
          right; right
          refine ⟨rfl, from_, events, by simp, hq, by simp [RingBuffer.Clear], ?_⟩
          left
          simpa [hev] using hd
        | false =>
          rw [fetchLoop_widen _ _ _ _ _ _ _ _ h1 events hq hd, hscan] at h
          rcases ih _ _ _ _ _ h with h500 | ⟨h200, hb, he, hl⟩ | ⟨h200, f, ev2, he, hq2, hb, hl⟩
          · left; exact h500
          · right; right
            refine ⟨h200, from_, events, by simp [he], hq, ?_, ?_⟩
            · rw [hb]; simp [RingBuffer.Data, RingBuffer.Clear]
            · right
              rw [hb]
              simpa [RingBuffer.Len, RingBuffer.Data] using hl
          · right; right
            refine ⟨h200, f, ev2, he, hq2, ?_, hl⟩
            rw [hb]
            simp [RingBuffer.foldl_push_size, RingBuffer.Clear]

theorem wideningQueries_succ (from_ delta to_ : Int) (k : Nat) :
    wideningQueries from_ delta to_ (k + 1) =
      .query from_ to_ :: wideningQueries (from_ - delta) (delta * 2) to_ k := by
  unfold wideningQueries
  rw [List.range_succ_eq_map]
  simp only [List.map_cons, List.map_map, pow_zero, sub_self, mul_zero, sub_zero]
  congr 1
  apply List.map_congr_left
  intro j _
  simp only [Function.comp, pow_succ]
  congr 1
  ring

theorem wideningQueries_one (from_ delta to_ : Int) :
    wideningQueries from_ delta to_ 1 = [.query from_ to_] := by
  rw [wideningQueries_succ]
  simp [wideningQueries]

theorem wideningQueries_le_one (from_ delta delta2 to_ : Int) (k : Nat) (hk : k ≤ 1) :
    wideningQueries from_ delta to_ k = wideningQueries from_ delta2 to_ k := by
  interval_cases k
  · simp [wideningQueries]
  · rw [wideningQueries_one, wideningQueries_one]

theorem fetchLoop_last (env : Env) (p : Params)
    (hq : ∀ f, ∃ events, env.LogsBetweenDates f p.to_ p.stdTypes = .ok events)
    (buffer : RingBuffer LogEvent) (from_ delta : Int) (out : List LogEvent)
    (effects : List Effect) (h : from_ < p.Created) :
    ∃ resp k, fetchLoop env p 1 buffer from_ delta out effects = some resp ∧
      resp.status = 200 ∧ k ≤ 1 ∧
      resp.effects = effects ++ wideningQueries from_ delta p.to_ k ∧
      ((buffer.Len : Int) ≤ p.minimum → 1 ≤ k) := by
  by_cases h1 : (buffer.Len : Int) > p.minimum
  · refine ⟨_, 0, fetchLoop_break _ _ _ _ _ _ _ _ h1, rfl, by omega, by simp [wideningQueries], ?_⟩
    intro h2; omega
  · obtain ⟨events, hev⟩ := hq from_
    refine ⟨_, 1, fetchLoop_done _ _ _ _ _ _ _ _ h1 events hev (by simp [h]), rfl, le_refl _,
      by rw [wideningQueries_one], fun _ => le_refl _⟩

theorem fetchLoop_terminates (env : Env) (p : Params) (hev : p.everything = false)
    (hq : ∀ f, ∃ events, env.LogsBetweenDates f p.to_ p.stdTypes = .ok events) (n : Nat) :
    ∀ (buffer : RingBuffer LogEvent) (from_ delta : Int) (out : List LogEvent)
      (effects : List Effect),
      0 < delta → delta < 2 ^ 63 → from_ - p.Created < 2 ^ 62 →
      from_ - p.Created < delta * (2 ^ n - 1) →
      ∃ resp k, fetchLoop env p (n + 1) buffer from_ delta out effects = some resp ∧
        resp.status = 200 ∧ k ≤ n + 1 ∧
        resp.effects = effects ++ wideningQueries from_ delta p.to_ k ∧
        ((buffer.Len : Int) ≤ p.minimum → 1 ≤ k) := by
  induction n with
  | zero =>
    intro buffer from_ delta out effects _ _ _ hg
    have hlt : from_ < p.Created := by simp at hg; omega
    exact fetchLoop_last env p hq buffer from_ delta out effects hlt
  | succ n ih =>
    intro buffer from_ delta out effects hd0 hd1 hr hg
    by_cases h1 : (buffer.Len : Int) > p.minimum
    · refine ⟨_, 0, fetchLoop_break _ _ _ _ _ _ _ _ h1, rfl, by omega,
        by simp [wideningQueries], ?_⟩
      intro h2; omega
    · obtain ⟨events, hevs⟩ := hq from_
      by_cases hlt : from_ < p.Created
      · refine ⟨_, 1, fetchLoop_done _ _ _ _ _ _ _ _ h1 events hevs (by simp [hlt]), rfl,
          by omega, by rw [wideningQueries_one], fun _ => le_refl _⟩
      · have hdn : (p.everything || decide (from_ < p.Created)) = false := by simp [hev, hlt]
        have hneg : wrap64 (-delta) = -delta := wrap64_of_range _ (by omega) (by omega)
        rw [fetchLoop_widen _ _ _ _ _ _ _ _ h1 events hevs hdn, hneg]
        simp only [timeAdd]
        by_cases hnext : from_ + -delta < p.Created
        · obtain ⟨resp, k, hrun, hst, hk, heff, _⟩ :=
            fetchLoop_last env p hq (scanEvents p events buffer.Clear out).1 (from_ + -delta)
              (wrap64 (delta * 2)) (scanEvents p events buffer.Clear out).2
              (effects ++ [.query from_ p.to_]) hnext
          refine ⟨resp, k + 1, ?_, hst, by omega, ?_, fun _ => by omega⟩
          · have := fetchLoop_mono _ _ _ _ _ _ _ _ _ hrun n
            rwa [Nat.add_comm 1 n] at this
          · rw [heff, wideningQueries_succ, wideningQueries_le_one _ _ (delta * 2) _ _ hk]
            simp [sub_eq_add_neg]
        · have hsmall : delta * 2 < 2 ^ 63 := by omega
          have hdbl : wrap64 (delta * 2) = delta * 2 := wrap64_of_range _ (by omega) hsmall
          rw [hdbl]
          have hg2 : from_ + -delta - p.Created < delta * 2 * (2 ^ n - 1) := by
            have : delta * 2 * (2 ^ n - 1) = delta * (2 ^ (n + 1) - 1) - delta := by ring
            rw [this]; omega
          obtain ⟨resp, k, hrun, hst, hk, heff, _⟩ :=
            ih (scanEvents p events buffer.Clear out).1 (from_ + -delta) (delta * 2)
              (scanEvents p events buffer.Clear out).2 (effects ++ [.query from_ p.to_])
              (by omega) hsmall (by omega) hg2
          refine ⟨resp, k + 1, hrun, hst, by omega, ?_, fun _ => by omega⟩
          rw [heff, wideningQueries_succ]
          simp [sub_eq_add_neg]

theorem fetch_valid (env : Env) (fuel : Nat) (r : Request) (c : Container)
    (regex : Option Regexp) (M : Int) (n : Nat) (to_ : Int)
    (hstd : stdTypesOf r ≠ 0) (hc : env.FindContainer = .ok c)
    (hre : parseFilter env r = .ok regex) (hmin : parseMinimum r 500 = some M)
    (hid : parseLastSeenId r (windowEnd env r) = some (n, to_)) :
    fetchLogsBetweenDates env fuel r =
      fetchLoop env (searchParams r regex M n to_ c.Created) fuel (RingBuffer.new LogEvent 500)
        (windowStart r) (initialDelta r) [] [.lookup] := by
  unfold fetchLogsBetweenDates
  simp only [hstd, if_false, hc, hre, RingBuffer.new, hmin, hid, searchParams]

theorem parseMinimum_range (r : Request) (size : Nat) (M : Int)
    (h : parseMinimum r size = some M) : 0 ≤ M ∧ M ≤ size := by
  unfold parseMinimum at h
  split at h
  · split at h
    · simp at h
    · split_ifs at h with hv
      injection h with h
      omega
  · injection h with h
    omega

theorem initialDelta_pos (r : Request) : 0 < initialDelta r := by
  unfold initialDelta Second
  omega

theorem initialDelta_lt (r : Request) : initialDelta r < 2 ^ 63 := by
  unfold initialDelta Second timeSub maxDuration minDuration
  split_ifs <;> omega

theorem length_lastN {α : Type} (n : Nat) (l : List α) : (lastN n l).length = min n l.length := by
  unfold lastN
  simp only [List.length_drop]
  omega

theorem lastN_of_le {α : Type} (n : Nat) (l : List α) (h : l.length ≤ n) : lastN n l = l := by
  unfold lastN
  simp [Nat.sub_eq_zero_of_le h]

theorem kept_no_cursor (p : Params) (hev : p.everything = false) (hid : p.lastSeenId = 0)
    (events : List LogEvent) :
    kept p events = events.filter (passesFilters p.onlyComplex p.regex p.levels) := by
  unfold kept
  have hns : ∀ e, scanEvent p e ≠ .stop := by
    intro e h
    rw [scanEvent_stop_iff p hev] at h
    exact h.2.1 hid
  have htw : events.takeWhile (fun e => scanEvent p e != .stop) = events := by
    rw [List.takeWhile_eq_self_iff]
    intro e _
    simpa using hns e
  rw [htw]
  apply List.filter_congr
  intro e _
  have := scanEvent_push_iff p hev e
  simp only [hid, ne_eq, not_true_eq_false, false_and, not_false_eq_true, and_true] at this
  cases hp : passesFilters p.onlyComplex p.regex p.levels e
  · have hne : scanEvent p e ≠ .push := fun h => by simp [this.mp h] at hp
    simpa using hne
  · simpa using this.mpr hp

theorem fetch_body_buffer (xs : List LogEvent) :
    (xs.foldl RingBuffer.Push (⟨500, []⟩ : RingBuffer LogEvent)).Data = lastN 500 xs := by
  have := (RingBuffer.foldl_push xs (⟨500, []⟩ : RingBuffer LogEvent) (by decide) (by simp)).2
  simpa [RingBuffer.Data] using this

theorem parseLastSeenId_none (r : Request) (to_ : Int) (h : r.lastSeenId = none) :
    parseLastSeenId r to_ = some (0, to_) := by
  simp [parseLastSeenId, h]

theorem source_window_all (records : List LogEvent) (created f to_ : Int)
    (hwf : ∀ e ∈ records, created ≤ e.Timestamp) (hf : f < created) :
    sourceLogsBetweenDates records f to_ =
      records.filter (fun e => decide (e.Timestamp < to_)) := by
  unfold sourceLogsBetweenDates
  apply List.filter_congr
  intro e he
  have := hwf e he
  have h1 : f ≤ e.Timestamp := by omega
  simp [h1]

theorem source_window_length_le (records : List LogEvent) (f to_ : Int) (q : LogEvent → Bool) :
    ((sourceLogsBetweenDates records f to_).filter q).length ≤
      (records.filter (fun e => decide (e.Timestamp < to_) && q e)).length := by
  unfold sourceLogsBetweenDates
  rw [List.filter_filter]
  have hsub : (records.filter (fun a => q a && (decide (f ≤ a.Timestamp) && decide (a.Timestamp < to_)))).Sublist
      (records.filter (fun e => decide (e.Timestamp < to_) && q e)) := by
    apply List.monotone_filter_right
    intro a ha
    simp only [Bool.and_eq_true, decide_eq_true_eq] at ha ⊢
    exact ⟨ha.2.2, ha.1⟩
  exact hsub.length_le

/-- The minimum-count guarantee of `fetchLogsBetweenDates` inside the range
where the widening step cannot overflow: for a request without `everything` and
without a cursor whose `minimum` parses to `M` (so `0 ≤ M ≤ 500`), on a source
whose queries succeed and whose records do not predate its creation, with the
window start less than `2 ^ 62` ns after the creation, the handler answers, and
if at least `M` records before `to` pass the filters the response holds at
least `M` records, while if fewer than `M` do the response is exactly all of
them. -/
theorem minimum_count_in_range (records : List LogEvent) (env : Env) (r : Request)
    (c : Container) (regex : Option Regexp) (M : Int)
    (hsrc : ∀ f t s, env.LogsBetweenDates f t s = .ok (sourceLogsBetweenDates records f t))
    (hwf : ∀ e ∈ records, c.Created ≤ e.Timestamp)
    (hstd : stdTypesOf r ≠ 0) (hc : env.FindContainer = .ok c)
    (hre : parseFilter env r = .ok regex) (hmin : parseMinimum r 500 = some M)
    (hev : r.everything = false) (hcur : r.lastSeenId = none)
    (hrange : r.from_ - c.Created < 2 ^ 62) :
    ∃ n resp, (∀ fuel, n ≤ fuel → fetchLogsBetweenDates env fuel r = some resp) ∧
      resp.status = 200 ∧
      (M ≤ (qualifying records r.to_ r.jsonOnly regex r.levels).length →
        M ≤ resp.body.length) ∧
      ((qualifying records r.to_ r.jsonOnly regex r.levels).length < M →
        resp.body = qualifying records r.to_ r.jsonOnly regex r.levels) := by
  have hwe : windowEnd env r = r.to_ := by simp [windowEnd, hev]
  have hws : windowStart r = r.from_ := by simp [windowStart, hev]
  have hid := parseLastSeenId_none r (windowEnd env r) hcur
  rw [hwe] at hid
  rw [← hwe] at hid
  have hM := parseMinimum_range r 500 M hmin
  have hd0 := initialDelta_pos r
  have hd1 := initialDelta_lt r
  set p := searchParams r regex M 0 (windowEnd env r) c.Created with hp
  have hpev : p.everything = false := hev
  have hq : ∀ f, ∃ events, env.LogsBetweenDates f p.to_ p.stdTypes = .ok events :=
    fun f => ⟨_, hsrc f _ _⟩
  have hg : windowStart r - p.Created < initialDelta r * (2 ^ 63 - 1) := by
    rw [hws]
    have : r.from_ - c.Created < 2 ^ 62 := hrange
    have h1 : (1 : Int) * (2 ^ 63 - 1) ≤ initialDelta r * (2 ^ 63 - 1) :=
      Int.mul_le_mul_of_nonneg_right (by omega) (by norm_num)
    show r.from_ - c.Created < _
    omega
  obtain ⟨resp, k, hrun, hst, _, _, _⟩ :=
    fetchLoop_terminates env p hpev hq 63 (RingBuffer.new LogEvent 500) (windowStart r)
      (initialDelta r) [] [.lookup] hd0 hd1 (by rw [hws]; exact hrange) hg
  refine ⟨64, resp, ?_, hst, ?_⟩
  · intro fuel hfuel
    rw [fetch_valid env fuel r c regex M 0 _ hstd hc hre hmin hid]
    obtain ⟨j, rfl⟩ := Nat.exists_eq_add_of_le hfuel
    exact fetchLoop_mono _ _ _ _ _ _ _ _ _ hrun j
  · rcases fetchLoop_result env p hpev _ _ _ _ _ _ hrun with h500 | ⟨_, _, _, hl⟩ | ⟨_, f, events, _, hqf, hb, hl⟩
    · rw [hst] at h500; simp at h500
    · simp only [RingBuffer.new, RingBuffer.Len, List.length_nil] at hl
      have : p.minimum = M := rfl
      omega
    · have hevs : events = sourceLogsBetweenDates records f p.to_ := by
        have := hsrc f p.to_ p.stdTypes
        rw [hqf] at this
        injection this
      have hkept := kept_no_cursor p hpev rfl events
      have hbody : resp.body = lastN 500 (events.filter (passesFilters r.jsonOnly regex r.levels)) := by
        rw [hb]
        simp only [RingBuffer.new]
        rw [fetch_body_buffer, hkept]
        rfl
      have hpto : p.to_ = r.to_ := hwe
      have hlen := length_lastN 500 (events.filter (passesFilters r.jsonOnly regex r.levels))
      have hle : (events.filter (passesFilters r.jsonOnly regex r.levels)).length ≤
          (qualifying records r.to_ r.jsonOnly regex r.levels).length := by
        rw [hevs, hpto]
        exact source_window_length_le records f r.to_ _
      rcases hl with hf | hmore
      · have hall : events.filter (passesFilters r.jsonOnly regex r.levels) =
            qualifying records r.to_ r.jsonOnly regex r.levels := by
          rw [hevs, hpto, source_window_all records c.Created f r.to_ hwf hf]
          unfold qualifying
          rw [List.filter_filter]
          apply List.filter_congr
          intro e _
          rw [Bool.and_comm]
        rw [hall] at hbody hlen
        constructor
        · intro h
          rw [hbody]
          omega
        · intro h
          rw [hbody]
          apply lastN_of_le
          omega
      · have hpm : p.minimum = M := rfl
        rw [hpm] at hmore
        rw [← hbody] at hlen
        constructor
        · intro _; omega
        · intro h
          omega

theorem minimum_count_in_range_witness :
    ∃ n resp, (∀ fuel, n ≤ fuel →
        fetchLogsBetweenDates (demoEnv [infoRecord 1, infoRecord 2, infoRecord 3] 0) fuel
          (plainRequest (2 * Second) (5 * Second) (some "500") ["info"]) = some resp) ∧
      resp.status = 200 ∧
      ((500 : Int) ≤ (qualifying [infoRecord 1, infoRecord 2, infoRecord 3] (5 * Second) false none
          ["info"]).length → (500 : Int) ≤ resp.body.length) ∧
      (((qualifying [infoRecord 1, infoRecord 2, infoRecord 3] (5 * Second) false none
          ["info"]).length : Int) < 500 →
        resp.body = qualifying [infoRecord 1, infoRecord 2, infoRecord 3] (5 * Second) false none
          ["info"]) :=
  minimum_count_in_range [infoRecord 1, infoRecord 2, infoRecord 3]
    (demoEnv [infoRecord 1, infoRecord 2, infoRecord 3] 0)
    (plainRequest (2 * Second) (5 * Second) (some "500") ["info"]) (demoContainer 0) none 500
    (fun _ _ _ => rfl) (by decide) (by decide) rfl rfl (by decide) rfl rfl (by decide)

theorem queryCount_widening (from_ delta to_ : Int) (k : Nat) :
    queryCount (.lookup :: wideningQueries from_ delta to_ k) = k := by
  unfold queryCount wideningQueries
  have hall : ∀ e ∈ (List.range k).map (fun j => Effect.query (from_ - delta * (2 ^ j - 1)) to_),
      (e != Effect.lookup) = true := by
    intro e he
    obtain ⟨j, _, rfl⟩ := List.mem_map.mp he
    simp
  rw [List.filter_cons_of_neg (by simp), List.filter_eq_self.mpr hall]
  simp

theorem widening_reach (g d : Int) (hg : 0 ≤ g) (hd : 0 < d) :
    g < d * (2 ^ (Nat.log 2 ((g + d) / d).toNat + 1) - 1) := by
  have hx : ((g + d) / d).toNat < 2 ^ (Nat.log 2 ((g + d) / d).toNat + 1) :=
    Nat.lt_pow_succ_log_self (by norm_num) _
  have hnn : 0 ≤ (g + d) / d := Int.ediv_nonneg (by omega) (by omega)
  have hx2 : (g + d) / d < 2 ^ (Nat.log 2 ((g + d) / d).toNat + 1) := by
    have : (((g + d) / d).toNat : Int) < ((2 ^ (Nat.log 2 ((g + d) / d).toNat + 1) : Nat) : Int) := by
      exact_mod_cast hx
    rw [Int.toNat_of_nonneg hnn] at this
    simpa using this
  have := Int.lt_mul_of_ediv_lt hd hx2
  nlinarith

/-- Claim C10, amended. Bounded widening of the adaptive search: for a request
without `everything` whose parameters are valid, whose window start is not
before the source's creation and less than `2 ^ 62` ns after it, and whose
source queries all succeed, the loop ends; it makes `k` source queries with
`1 ≤ k ≤ floor(log2(elapsed / initial_delta)) + 2`, where `elapsed` is
`(from - created) + initial_delta` (the time from the creation to `to` when
`to - from` is at least 3s), and the query after `j` widenings is over
`[from - initial_delta * (2 ^ j - 1), to)`. -/
theorem bounded_widening (env : Env) (r : Request) (c : Container) (regex : Option Regexp)
    (M : Int) (n : Nat) (to_ : Int)
    (hstd : stdTypesOf r ≠ 0) (hc : env.FindContainer = .ok c)
    (hre : parseFilter env r = .ok regex) (hmin : parseMinimum r 500 = some M)
    (hid : parseLastSeenId r (windowEnd env r) = some (n, to_))
    (hev : r.everything = false)
    (hq : ∀ f t s, ∃ events, env.LogsBetweenDates f t s = .ok events)
    (hfrom : c.Created ≤ r.from_) (hrange : r.from_ - c.Created < 2 ^ 62) :
    ∃ resp k,
      (∀ fuel, Nat.log 2 ((r.from_ - c.Created + initialDelta r) / initialDelta r).toNat + 2 ≤ fuel →
        fetchLogsBetweenDates env fuel r = some resp) ∧
      resp.status = 200 ∧
      resp.effects = .lookup :: wideningQueries r.from_ (initialDelta r) to_ k ∧
      queryCount resp.effects = k ∧
      1 ≤ k ∧
      k ≤ Nat.log 2 ((r.from_ - c.Created + initialDelta r) / initialDelta r).toNat + 2 ∧
      (Second * 3 ≤ r.to_ - r.from_ → r.to_ - r.from_ ≤ maxDuration →
        r.from_ - c.Created + initialDelta r = r.to_ - c.Created) := by
  have hws : windowStart r = r.from_ := by simp [windowStart, hev]
  have hM := parseMinimum_range r 500 M hmin
  have hd0 := initialDelta_pos r
  have hd1 := initialDelta_lt r
  set p := searchParams r regex M n to_ c.Created with hp
  have hpev : p.everything = false := hev
  have hreach := widening_reach (r.from_ - c.Created) (initialDelta r) (by omega) hd0
  obtain ⟨resp, k, hrun, hst, hk, heff, hk1⟩ :=
    fetchLoop_terminates env p hpev (fun f => hq f _ _)
      (Nat.log 2 ((r.from_ - c.Created + initialDelta r) / initialDelta r).toNat + 1)
      (RingBuffer.new LogEvent 500) (windowStart r)
      (initialDelta r) [] [.lookup] hd0 hd1 (by rw [hws]; exact hrange)
      (by rw [hws]; exact hreach)
  have heff2 : resp.effects = .lookup :: wideningQueries r.from_ (initialDelta r) to_ k := by
    rw [heff, hws]; rfl
  refine ⟨resp, k, ?_, hst, heff2, ?_, ?_, hk, ?_⟩
  · intro fuel hfuel
    rw [fetch_valid env fuel r c regex M n to_ hstd hc hre hmin hid]
    obtain ⟨j, rfl⟩ := Nat.exists_eq_add_of_le hfuel
    exact fetchLoop_mono _ _ _ _ _ _ _ _ _ hrun j
  · rw [heff2, queryCount_widening]
  · apply hk1
    have : p.minimum = M := rfl
    simp only [RingBuffer.new, RingBuffer.Len, List.length_nil]
    omega
  · intro h1 h2
    unfold initialDelta timeSub
    unfold maxDuration at h2
    unfold minDuration maxDuration
    unfold Second at h1 ⊢
    split_ifs <;> omega

/-- Witness of the amended claim C10: a source created at instant 0 without
records, queried over `[0, 3s)`. -/
theorem bounded_widening_witness :
    ∃ resp k,
      (∀ fuel, Nat.log 2 (((0 : Int) - (demoContainer 0).Created +
            initialDelta (plainRequest 0 (3 * Second) none ["info"])) /
            initialDelta (plainRequest 0 (3 * Second) none ["info"])).toNat + 2 ≤ fuel →
        fetchLogsBetweenDates (demoEnv [] 0) fuel (plainRequest 0 (3 * Second) none ["info"]) =
          some resp) ∧
      resp.status = 200 ∧
      resp.effects = .lookup :: wideningQueries 0
        (initialDelta (plainRequest 0 (3 * Second) none ["info"])) (3 * Second) k ∧
      queryCount resp.effects = k ∧
      1 ≤ k ∧
      k ≤ Nat.log 2 (((0 : Int) - (demoContainer 0).Created +
            initialDelta (plainRequest 0 (3 * Second) none ["info"])) /
            initialDelta (plainRequest 0 (3 * Second) none ["info"])).toNat + 2 ∧
      (Second * 3 ≤ 3 * Second - 0 → 3 * Second - 0 ≤ maxDuration →
        (0 : Int) - (demoContainer 0).Created +
          initialDelta (plainRequest 0 (3 * Second) none ["info"]) =
          3 * Second - (demoContainer 0).Created) :=
  bounded_widening (demoEnv [] 0) (plainRequest 0 (3 * Second) none ["info"]) (demoContainer 0)
    none 0 0 (3 * Second) (by decide) rfl rfl (by decide) (by decide) rfl
    (fun _ _ _ => ⟨_, rfl⟩) (by decide) (by decide)

set_option maxRecDepth 100000 in
/-- Counterexample to claim C10 as stated: with `from` at the creation instant
and `to` three seconds later, `elapsed / initial_delta` is 1, the stated bound
`ceil(log2 1) + 1` is 1, and the loop makes 2 source queries. -/
theorem bounded_widening_counterexample :
    ∃ resp,
      fetchLogsBetweenDates (demoEnv [] 0) 5 (plainRequest 0 (3 * Second) none ["info"]) =
        some resp ∧
      (demoContainer 0).Created ≤ (plainRequest 0 (3 * Second) none ["info"]).from_ ∧
      specLoopBound (3 * Second - (demoContainer 0).Created)
        (initialDelta (plainRequest 0 (3 * Second) none ["info"])) = 1 ∧
      queryCount resp.effects = 2 :=
  ⟨⟨200, [], [.lookup, .query 0 (3 * Second), .query (-(3 * Second)) (3 * Second)]⟩,
    by decide, by decide, by simp [specLoopBound, Second, demoContainer, initialDelta, plainRequest, timeSub, maxDuration, minDuration], by decide⟩

theorem fetchLoop_total_last (env : Env) (p : Params)
    (buffer : RingBuffer LogEvent) (from_ delta : Int) (out : List LogEvent)
    (effects : List Effect) (h : (p.everything || decide (from_ < p.Created)) = true) :
    ∃ resp, fetchLoop env p 1 buffer from_ delta out effects = some resp := by
  by_cases h1 : (buffer.Len : Int) > p.minimum
  · exact ⟨_, fetchLoop_break _ _ _ _ _ _ _ _ h1⟩
  · cases hq : env.LogsBetweenDates from_ p.to_ p.stdTypes with
    | error err => exact ⟨_, fetchLoop_error _ _ _ _ _ _ _ _ h1 err hq⟩
    | ok events => exact ⟨_, fetchLoop_done _ _ _ _ _ _ _ _ h1 events hq h⟩

theorem fetchLoop_total (env : Env) (p : Params) (n : Nat) :
    ∀ (buffer : RingBuffer LogEvent) (from_ delta : Int) (out : List LogEvent)
      (effects : List Effect),
      0 < delta → delta < 2 ^ 63 → from_ - p.Created < 2 ^ 62 →
      from_ - p.Created < delta * (2 ^ n - 1) →
      ∃ resp, fetchLoop env p (n + 1) buffer from_ delta out effects = some resp := by
  induction n with
  | zero =>
    intro buffer from_ delta out effects _ _ _ hg
    have hlt : from_ < p.Created := by simp at hg; omega
    exact fetchLoop_total_last env p buffer from_ delta out effects (by simp [hlt])
  | succ n ih =>
    intro buffer from_ delta out effects hd0 hd1 hr hg
    by_cases h1 : (buffer.Len : Int) > p.minimum
    · exact ⟨_, fetchLoop_break _ _ _ _ _ _ _ _ h1⟩
    · cases hq : env.LogsBetweenDates from_ p.to_ p.stdTypes with
      | error err => exact ⟨_, fetchLoop_error _ _ _ _ _ _ _ _ h1 err hq⟩
      | ok events =>
        cases hdn : (p.everything || decide (from_ < p.Created)) with
        | true => exact ⟨_, fetchLoop_done _ _ _ _ _ _ _ _ h1 events hq hdn⟩
        | false =>
          have hlt : ¬ from_ < p.Created := by
            intro h; simp [h] at hdn
          have hneg : wrap64 (-delta) = -delta := wrap64_of_range _ (by omega) (by omega)
          rw [fetchLoop_widen _ _ _ _ _ _ _ _ h1 events hq hdn, hneg]
          simp only [timeAdd]
          by_cases hnext : from_ + -delta < p.Created
          · obtain ⟨resp, hrun⟩ :=
              fetchLoop_total_last env p (scanEvents p events buffer.Clear out).1 (from_ + -delta)
                (wrap64 (delta * 2)) (scanEvents p events buffer.Clear out).2
                (effects ++ [.query from_ p.to_]) (by simp [hnext])
            have := fetchLoop_mono _ _ _ _ _ _ _ _ _ hrun n
            rw [Nat.add_comm 1 n] at this
            exact ⟨resp, this⟩
          · have hsmall : delta * 2 < 2 ^ 63 := by omega
            have hdbl : wrap64 (delta * 2) = delta * 2 := wrap64_of_range _ (by omega) hsmall
            rw [hdbl]
            have hg2 : from_ + -delta - p.Created < delta * 2 * (2 ^ n - 1) := by
              have : delta * 2 * (2 ^ n - 1) = delta * (2 ^ (n + 1) - 1) - delta := by ring
              rw [this]; omega
            exact ih _ _ _ _ _ (by omega) hsmall (by omega) hg2

theorem fetch_mono (env : Env) (r : Request) (fuel : Nat) (resp : Response)
    (hrun : fetchLogsBetweenDates env fuel r = some resp) (j : Nat) :
    fetchLogsBetweenDates env (fuel + j) r = some resp := by
  unfold fetchLogsBetweenDates at hrun ⊢
  simp only at hrun ⊢
  split_ifs at hrun ⊢ with hstd
  · exact hrun
  · split at hrun
    · exact hrun
    · split at hrun
      · exact hrun
      · split at hrun
        · exact hrun
        · split at hrun
          · exact hrun
          · exact fetchLoop_mono _ _ _ _ _ _ _ _ _ hrun j

/-- The handler answers every request whose window start is less than
`2 ^ 62` ns after the creation of the source it finds: 64 iterations of the
loop are enough. -/
theorem fetch_total (env : Env) (r : Request)
    (hrange : r.everything = false → ∀ c, env.FindContainer = .ok c →
      r.from_ - c.Created < 2 ^ 62) :
    ∃ resp, ∀ fuel, 64 ≤ fuel → fetchLogsBetweenDates env fuel r = some resp := by
  have key : ∃ resp, fetchLogsBetweenDates env 64 r = some resp := by
    unfold fetchLogsBetweenDates
    simp only
    split_ifs with hstd
    · exact ⟨_, rfl⟩
    · cases hc : env.FindContainer with
      | error e => exact ⟨_, rfl⟩
      | ok c =>
        cases hre : parseFilter env r with
        | error e => exact ⟨_, rfl⟩
        | ok regex =>
          cases hmin : parseMinimum r (RingBuffer.new LogEvent 500).Size with
          | none => exact ⟨_, rfl⟩
          | some M =>
            cases hid : parseLastSeenId r (windowEnd env r) with
            | none => exact ⟨_, rfl⟩
            | some v =>
              obtain ⟨n, to_⟩ := v
              simp only
              cases hev : r.everything with
              | true =>
                obtain ⟨resp, hrun⟩ := fetchLoop_total_last env
                  ⟨stdTypesOf r, regex, r.jsonOnly, true, M, r.levels, n, to_, c.Created⟩
                  (RingBuffer.new LogEvent 500) (windowStart r) (initialDelta r) [] [.lookup] rfl
                exact ⟨resp, fetchLoop_mono _ _ _ _ _ _ _ _ _ hrun 63⟩
              | false =>
                have hws : windowStart r = r.from_ := by simp [windowStart, hev]
                have hd0 := initialDelta_pos r
                have hr := hrange hev c hc
                apply fetchLoop_total env _ 63 _ _ _ _ _ hd0 (initialDelta_lt r)
                · rw [hws]; exact hr
                · rw [hws]
                  have h1 : (1 : Int) * (2 ^ 63 - 1) ≤ initialDelta r * (2 ^ 63 - 1) :=
                    Int.mul_le_mul_of_nonneg_right (by omega) (by norm_num)
                  show r.from_ - c.Created < _
                  omega
  obtain ⟨resp, hrun⟩ := key
  refine ⟨resp, fun fuel hfuel => ?_⟩
  obtain ⟨j, rfl⟩ := Nat.exists_eq_add_of_le hfuel
  exact fetch_mono env r 64 resp hrun j

theorem parseLastSeenId_end (env : Env) (r : Request) (n : Nat) (to_ : Int)
    (hid : parseLastSeenId r (windowEnd env r) = some (n, to_)) : to_ = queriedEnd env r := by
  unfold parseLastSeenId at hid
  unfold queriedEnd
  cases hl : r.lastSeenId with
  | none =>
    rw [hl] at hid
    simp only [Option.some.injEq, Prod.mk.injEq] at hid
    simp [hid.2]
  | some s =>
    rw [hl] at hid
    simp only at hid
    cases hp : ParseUint32 s with
    | none => rw [hp] at hid; simp at hid
    | some v =>
      rw [hp] at hid
      simp only [Option.map_some', Option.some.injEq, Prod.mk.injEq] at hid
      simp [hid.2]

/-- Claim C4, amended. Initial window already sufficient: for a request without
`everything` and without a cursor, with valid parameters, `minimum` equal to
`M < 500` and `from` not before the source's creation, whose initial window
`[from, to)` yields more than `M` records passing the filters, the handler
returns all the qualifying records of that window in order (the latest 500 when
there are more) after a single source query. -/
theorem initial_window_sufficient (env : Env) (r : Request) (c : Container)
    (regex : Option Regexp) (M : Int) (events : List LogEvent)
    (hstd : stdTypesOf r ≠ 0) (hc : env.FindContainer = .ok c)
    (hre : parseFilter env r = .ok regex) (hmin : parseMinimum r 500 = some M)
    (hev : r.everything = false) (hcur : r.lastSeenId = none)
    (hfrom : c.Created ≤ r.from_)
    (hq : env.LogsBetweenDates r.from_ r.to_ (stdTypesOf r) = .ok events)
    (hmore : M < ((events.filter (passesFilters r.jsonOnly regex r.levels)).length : Int))
    (hcap : M < 500) :
    ∀ fuel, 2 ≤ fuel →
      fetchLogsBetweenDates env fuel r =
        some ⟨200, lastN 500 (events.filter (passesFilters r.jsonOnly regex r.levels)),
          [.lookup, .query r.from_ r.to_]⟩ := by
  intro fuel hfuel
  have hwe : windowEnd env r = r.to_ := by simp [windowEnd, hev]
  have hws : windowStart r = r.from_ := by simp [windowStart, hev]
  have hid := parseLastSeenId_none r (windowEnd env r) hcur
  have hM := parseMinimum_range r 500 M hmin
  rw [fetch_valid env fuel r c regex M 0 _ hstd hc hre hmin hid]
  obtain ⟨j, rfl⟩ := Nat.exists_eq_add_of_le hfuel
  set p := searchParams r regex M 0 (windowEnd env r) c.Created with hp
  have hpev : p.everything = false := hev
  have hpm : p.minimum = M := rfl
  have h1 : ¬ (((RingBuffer.new LogEvent 500).Len : Int) > p.minimum) := by
    simp only [RingBuffer.new, RingBuffer.Len, List.length_nil]
    omega
  have hq2 : env.LogsBetweenDates (windowStart r) p.to_ p.stdTypes = .ok events := by
    rw [hws]
    show env.LogsBetweenDates r.from_ (windowEnd env r) (stdTypesOf r) = _
    rw [hwe]; exact hq
  have hdn : (p.everything || decide (windowStart r < p.Created)) = false := by
    have : ¬ r.from_ < c.Created := by omega
    rw [hws]
    simp only [hpev, Bool.false_or, decide_eq_false_iff_not]
    exact this
  rw [show 2 + j = (j + 1) + 1 by omega,
    fetchLoop_widen _ _ _ _ _ _ _ _ h1 events hq2 hdn, scanEvents_eq p hpev]
  have hdata : ((kept p events).foldl RingBuffer.Push (RingBuffer.new LogEvent 500).Clear).Data =
      lastN 500 (events.filter (passesFilters r.jsonOnly regex r.levels)) := by
    simp only [RingBuffer.new, RingBuffer.Clear]
    rw [fetch_body_buffer, kept_no_cursor p hpev rfl]
    rfl
  have hlen := length_lastN 500 (events.filter (passesFilters r.jsonOnly regex r.levels))
  have h2 : (((kept p events).foldl RingBuffer.Push (RingBuffer.new LogEvent 500).Clear).Len : Int) >
      p.minimum := by
    have : ((kept p events).foldl RingBuffer.Push (RingBuffer.new LogEvent 500).Clear).Len =
        (lastN 500 (events.filter (passesFilters r.jsonOnly regex r.levels))).length := by
      rw [← hdata]; rfl
    rw [this, hlen, hpm]
    omega
  rw [fetchLoop_break _ _ _ _ _ _ _ _ h2, hdata]
  simp only [List.nil_append, List.singleton_append, List.cons_append]
  rw [hws]
  show some (Response.mk 200 _ [Effect.lookup, Effect.query r.from_ (windowEnd env r)]) = _
  rw [hwe]

/-- Claim C3, amended. `everything` mode: for a request with `everything` set,
valid parameters and a source that is found, the handler makes a single source
query over `[zero time, now)` (`[zero time, now + 50ms)` when `lastSeenId` is
given) and, when it succeeds, the response is every record the query yields, in
the source's order, unfiltered by level, regular expression and `jsonOnly`
alike. -/
theorem everything_mode (env : Env) (r : Request) (c : Container)
    (regex : Option Regexp) (M : Int) (n : Nat) (to_ : Int)
    (hstd : stdTypesOf r ≠ 0) (hc : env.FindContainer = .ok c)
    (hre : parseFilter env r = .ok regex) (hmin : parseMinimum r 500 = some M)
    (hid : parseLastSeenId r (windowEnd env r) = some (n, to_))
    (hev : r.everything = true) :
    to_ = (if r.lastSeenId.isSome then env.Now + 50 * Millisecond else env.Now) ∧
    (∀ events, env.LogsBetweenDates zeroTime to_ (stdTypesOf r) = .ok events →
      ∀ fuel, 1 ≤ fuel →
        fetchLogsBetweenDates env fuel r =
          some ⟨200, events, [.lookup, .query zeroTime to_]⟩) ∧
    (∀ err, env.LogsBetweenDates zeroTime to_ (stdTypesOf r) = .error err →
      ∀ fuel, 1 ≤ fuel →
        fetchLogsBetweenDates env fuel r =
          some ⟨500, [], [.lookup, .query zeroTime to_]⟩) := by
  have hws : windowStart r = zeroTime := by simp [windowStart, hev]
  have hM := parseMinimum_range r 500 M hmin
  set p := searchParams r regex M n to_ c.Created with hp
  have hpev : p.everything = true := hev
  have h1 : ¬ (((RingBuffer.new LogEvent 500).Len : Int) > p.minimum) := by
    have hpm : p.minimum = M := rfl
    simp only [RingBuffer.new, RingBuffer.Len, List.length_nil]
    omega
  refine ⟨?_, ?_, ?_⟩
  · rw [parseLastSeenId_end env r n to_ hid]
    simp [queriedEnd, windowEnd, hev, timeAdd]
  · intro events hq fuel hfuel
    rw [fetch_valid env fuel r c regex M n to_ hstd hc hre hmin hid]
    obtain ⟨j, rfl⟩ := Nat.exists_eq_add_of_le hfuel
    have hq2 : env.LogsBetweenDates (windowStart r) p.to_ p.stdTypes = .ok events := by
      rw [hws]; exact hq
    rw [show 1 + j = j + 1 by omega,
      fetchLoop_done _ _ _ _ _ _ _ _ h1 events hq2 (by simp [hpev]),
      scanEvents_everything p hpev, hws]
    simp [RingBuffer.Clear, RingBuffer.Data, RingBuffer.new]
    rfl
  · intro err hq fuel hfuel
    rw [fetch_valid env fuel r c regex M n to_ hstd hc hre hmin hid]
    obtain ⟨j, rfl⟩ := Nat.exists_eq_add_of_le hfuel
    have hq2 : env.LogsBetweenDates (windowStart r) p.to_ p.stdTypes = .error err := by
      rw [hws]; exact hq
    rw [show 1 + j = j + 1 by omega, fetchLoop_error _ _ _ _ _ _ _ _ h1 err hq2, hws]
    simp
    rfl

/-- Witness of the amended claim C4: the example of the specification, a source
created at instant 0 with `info` records at 1s to 10s, queried over `[0, 5s)`
with `minimum=3`. -/
theorem initial_window_sufficient_witness :
    fetchLogsBetweenDates (demoEnv tenRecords 0) 2
        (plainRequest 0 (5 * Second) (some "3") ["info"]) =
      some ⟨200, lastN 500 ((sourceLogsBetweenDates tenRecords 0 (5 * Second)).filter
          (passesFilters false none ["info"])),
        [.lookup, .query 0 (5 * Second)]⟩ :=
  initial_window_sufficient (demoEnv tenRecords 0)
    (plainRequest 0 (5 * Second) (some "3") ["info"]) (demoContainer 0) none 3
    (sourceLogsBetweenDates tenRecords 0 (5 * Second))
    (by decide) rfl rfl (by decide) rfl rfl (by decide) rfl (by decide) (by decide)
    2 (Nat.le_refl 2)

set_option maxRecDepth 100000 in
/-- Counterexample to claim C4 as stated: on the example of the specification
(`info` records at 1s to 10s, query `[0, 5s)`, `minimum=3`) the handler returns
the four records of the window, not the three earliest. -/
theorem initial_window_sufficient_counterexample :
    ∃ resp,
      fetchLogsBetweenDates (demoEnv tenRecords 0) 2
          (plainRequest 0 (5 * Second) (some "3") ["info"]) = some resp ∧
      resp.body = [infoRecord 1, infoRecord 2, infoRecord 3, infoRecord 4] ∧
      resp.body.length ≠ 3 :=
  ⟨⟨200, [infoRecord 1, infoRecord 2, infoRecord 3, infoRecord 4],
      [.lookup, .query 0 (5 * Second)]⟩, by decide, rfl, by decide⟩

/-- Witness of the amended claim C3: `everything` with `jsonOnly` on a source
holding three text records. -/
theorem everything_mode_witness :
    (1000 * Second : Int) =
      (if everythingRequest.lastSeenId.isSome then
        (demoEnv [infoRecord 1, infoRecord 2, infoRecord 3] 0).Now + 50 * Millisecond
       else (demoEnv [infoRecord 1, infoRecord 2, infoRecord 3] 0).Now) ∧
    (∀ events,
      (demoEnv [infoRecord 1, infoRecord 2, infoRecord 3] 0).LogsBetweenDates zeroTime
          (1000 * Second) (stdTypesOf everythingRequest) = .ok events →
      ∀ fuel, 1 ≤ fuel →
        fetchLogsBetweenDates (demoEnv [infoRecord 1, infoRecord 2, infoRecord 3] 0) fuel
            everythingRequest =
          some ⟨200, events, [.lookup, .query zeroTime (1000 * Second)]⟩) ∧
    (∀ err,
      (demoEnv [infoRecord 1, infoRecord 2, infoRecord 3] 0).LogsBetweenDates zeroTime
          (1000 * Second) (stdTypesOf everythingRequest) = .error err →
      ∀ fuel, 1 ≤ fuel →
        fetchLogsBetweenDates (demoEnv [infoRecord 1, infoRecord 2, infoRecord 3] 0) fuel
            everythingRequest =
          some ⟨500, [], [.lookup, .query zeroTime (1000 * Second)]⟩) :=
  everything_mode (demoEnv [infoRecord 1, infoRecord 2, infoRecord 3] 0) everythingRequest
    (demoContainer 0) none 0 0 (1000 * Second) (by decide) rfl rfl (by decide) (by decide) rfl

set_option maxRecDepth 100000 in
/-- Counterexample to claim C3 as stated: with `everything` and `jsonOnly` both
set, a record whose payload is a plain text line is returned. -/
theorem everything_mode_counterexample :
    ∃ resp,
      fetchLogsBetweenDates (demoEnv [infoRecord 1] 0) 1 everythingRequest = some resp ∧
      everythingRequest.everything = true ∧ everythingRequest.jsonOnly = true ∧
      (infoRecord 1).Message.isString = true ∧ infoRecord 1 ∈ resp.body :=
  ⟨⟨200, [infoRecord 1], [.lookup, .query zeroTime (1000 * Second)]⟩,
    by decide, rfl, rfl, rfl, by decide⟩

theorem kept_cursor (p : Params) (hev : p.everything = false) (hn : p.lastSeenId ≠ 0)
    (events : List LogEvent) :
    kept p events =
      (beforeCursor p.onlyComplex p.regex p.levels p.lastSeenId events).filter
        (passesFilters p.onlyComplex p.regex p.levels) := by
  unfold kept beforeCursor
  have hcond : ∀ e, (scanEvent p e != .stop) =
      !(passesFilters p.onlyComplex p.regex p.levels e && e.Id == p.lastSeenId) := by
    intro e
    have hs := scanEvent_stop_iff p hev e
    by_cases h : scanEvent p e = .stop
    · have := hs.mp h
      simp [h, this.1, this.2.2]
    · have hne : ¬ (passesFilters p.onlyComplex p.regex p.levels e = true ∧
          (p.lastSeenId ≠ 0 ∧ e.Id = p.lastSeenId)) := fun hh => h (hs.mpr hh)
      have h1 : (scanEvent p e != .stop) = true := by simpa using h
      rw [h1]
      symm
      simp only [Bool.not_eq_true', Bool.and_eq_false_imp, beq_eq_false_iff_ne, ne_eq]
      intro hp hid
      exact hne ⟨hp, hn, hid⟩
  have hfun : (fun e => scanEvent p e != .stop) =
      (fun e => !(passesFilters p.onlyComplex p.regex p.levels e && e.Id == p.lastSeenId)) :=
    funext hcond
  rw [hfun]
  apply List.filter_congr
  intro e he
  have hmem := List.mem_takeWhile_imp he
  have hp := scanEvent_push_iff p hev e
  cases hpass : passesFilters p.onlyComplex p.regex p.levels e with
  | false =>
    have hne : scanEvent p e ≠ .push := fun h => by simp [(hp.mp h).1] at hpass
    simpa using hne
  | true =>
    have hid : e.Id ≠ p.lastSeenId := by
      simpa [hpass] using hmem
    have : scanEvent p e = .push := hp.mpr ⟨hpass, fun h => hid h.2⟩
    simp [this]

theorem mem_lastN {α : Type} (n : Nat) (l : List α) (x : α) (h : x ∈ lastN n l) : x ∈ l :=
  List.mem_of_mem_drop h

theorem kept_push (p : Params) (events : List LogEvent) (e : LogEvent) (h : e ∈ kept p events) :
    scanEvent p e = .push := by
  unfold kept at h
  have := (List.mem_filter.mp h).2
  simpa using this

/-- Claim C2, amended. Cursor exclusion in `fetchLogsBetweenDates`: for a
request not in `everything` mode with valid parameters whose `lastSeenId` is a
non-zero id `n`, the response holds no record with id `n`; a successful response
is the records passing the filters that come before the first filter-passing
record with id `n` in the last queried batch (the latest 500 of them), so the
records earlier than the cursor record are returned and the cursor record and
those after it are not. The handler answers when the window start is less than
`2 ^ 62` ns after the source's creation. -/
theorem cursor_exclusion (env : Env) (r : Request) (c : Container)
    (regex : Option Regexp) (M : Int) (n : Nat) (to_ : Int)
    (hstd : stdTypesOf r ≠ 0) (hc : env.FindContainer = .ok c)
    (hre : parseFilter env r = .ok regex) (hmin : parseMinimum r 500 = some M)
    (hid : parseLastSeenId r (windowEnd env r) = some (n, to_))
    (hev : r.everything = false) (hn : n ≠ 0) :
    (∀ fuel resp, fetchLogsBetweenDates env fuel r = some resp →
      (∀ e ∈ resp.body, e.Id ≠ n) ∧
      (resp.status = 200 → ∃ f events,
        resp.effects.getLast? = some (.query f to_) ∧
        env.LogsBetweenDates f to_ (stdTypesOf r) = .ok events ∧
        resp.body = lastN 500
          ((beforeCursor r.jsonOnly regex r.levels n events).filter
            (passesFilters r.jsonOnly regex r.levels)))) ∧
    (r.from_ - c.Created < 2 ^ 62 →
      ∃ resp, ∀ fuel, 64 ≤ fuel → fetchLogsBetweenDates env fuel r = some resp) := by
  constructor
  · intro fuel resp hrun
    rw [fetch_valid env fuel r c regex M n to_ hstd hc hre hmin hid] at hrun
    have hM := parseMinimum_range r 500 M hmin
    set p := searchParams r regex M n to_ c.Created with hp
    have hpev : p.everything = false := hev
    rcases fetchLoop_result env p hpev _ _ _ _ _ _ hrun with
      h500 | ⟨_, _, _, hl⟩ | ⟨_, f, events, hlast, hqf, hb, _⟩
    · refine ⟨?_, ?_⟩
      · intro e he
        rw [h500.2] at he
        simp at he
      · intro h200
        rw [h500.1] at h200
        simp at h200
    · simp only [RingBuffer.new, RingBuffer.Len, List.length_nil] at hl
      have : p.minimum = M := rfl
      omega
    · have hbody : resp.body = lastN 500 (kept p events) := by
        rw [hb]
        simp only [RingBuffer.new]
        rw [fetch_body_buffer]
      refine ⟨?_, ?_⟩
      · intro e he heq
        rw [hbody] at he
        have hpush := kept_push p events e (mem_lastN _ _ _ he)
        have := ((scanEvent_push_iff p hpev e).mp hpush).2
        exact this ⟨hn, heq⟩
      · intro _
        refine ⟨f, events, hlast, hqf, ?_⟩
        rw [hbody, kept_cursor p hpev hn]
        rfl
  · intro hrange
    exact fetch_total env r (fun _ c2 hc2 => by
      rw [hc] at hc2
      injection hc2 with hc2
      rw [← hc2]
      exact hrange)

/-- Witness of the amended claim C2: three `info` records with ids 1, 2, 3 and
the cursor `lastSeenId=2`. -/
theorem cursor_exclusion_witness :
    (∀ fuel resp,
      fetchLogsBetweenDates (demoEnv [infoRecord 1, infoRecord 2, infoRecord 3] 0) fuel
          (cursorRequest 0 (5 * Second) "2") = some resp →
      (∀ e ∈ resp.body, e.Id ≠ 2) ∧
      (resp.status = 200 → ∃ f events,
        resp.effects.getLast? = some (.query f (5 * Second + 50 * Millisecond)) ∧
        (demoEnv [infoRecord 1, infoRecord 2, infoRecord 3] 0).LogsBetweenDates f
            (5 * Second + 50 * Millisecond) (stdTypesOf (cursorRequest 0 (5 * Second) "2")) =
          .ok events ∧
        resp.body = lastN 500
          ((beforeCursor false none ["info"] 2 events).filter
            (passesFilters false none ["info"])))) ∧
    ((0 : Int) - (demoContainer 0).Created < 2 ^ 62 →
      ∃ resp, ∀ fuel, 64 ≤ fuel →
        fetchLogsBetweenDates (demoEnv [infoRecord 1, infoRecord 2, infoRecord 3] 0) fuel
          (cursorRequest 0 (5 * Second) "2") = some resp) :=
  cursor_exclusion (demoEnv [infoRecord 1, infoRecord 2, infoRecord 3] 0)
    (cursorRequest 0 (5 * Second) "2") (demoContainer 0) none 0 2
    (5 * Second + 50 * Millisecond) (by decide) rfl rfl (by decide) (by decide) rfl (by decide)

set_option maxRecDepth 100000 in
/-- Counterexample to claim C2 as stated: with records 1, 2, 3 in one batch and
`lastSeenId=2`, the response is record 1, which comes earlier than the cursor
record in the same batch. -/
theorem cursor_exclusion_counterexample :
    ∃ resp,
      fetchLogsBetweenDates (demoEnv [infoRecord 1, infoRecord 2, infoRecord 3] 0) 2
          (cursorRequest 0 (5 * Second) "2") = some resp ∧
      sourceLogsBetweenDates [infoRecord 1, infoRecord 2, infoRecord 3] 0
          (5 * Second + 50 * Millisecond) = [infoRecord 1, infoRecord 2, infoRecord 3] ∧
      resp.effects = [.lookup, .query 0 (5 * Second + 50 * Millisecond)] ∧
      resp.body = [infoRecord 1] :=
  ⟨⟨200, [infoRecord 1], [.lookup, .query 0 (5 * Second + 50 * Millisecond)]⟩,
    by decide, by decide, rfl, rfl⟩

/-- Claim C6, amended. Validation errors in `fetchLogsBetweenDates`: a missing
stream selector gives status 400 before the source lookup and before any log
query; an unparsable or out-of-range `minimum`, an invalid `lastSeenId` or a
malformed `filter` gives status 400 when the source lookup succeeds, after the
lookup and before any log query, and status 404 when the lookup fails. -/
theorem validation_errors (env : Env) (fuel : Nat) (r : Request) :
    (stdTypesOf r = 0 → fetchLogsBetweenDates env fuel r = some ⟨400, [], []⟩) ∧
    (stdTypesOf r ≠ 0 →
      ((∃ f err, r.filter = some f ∧ env.ParseRegex f = .error err) ∨
       (∃ m, r.minimum = some m ∧
          (Atoi m = none ∨ ∃ v, Atoi m = some v ∧ (v < 0 ∨ v > 500))) ∨
       (∃ s, r.lastSeenId = some s ∧ ParseUint32 s = none)) →
      (∀ c, env.FindContainer = .ok c →
        fetchLogsBetweenDates env fuel r = some ⟨400, [], [.lookup]⟩) ∧
      (∀ err, env.FindContainer = .error err →
        fetchLogsBetweenDates env fuel r = some ⟨404, [], [.lookup]⟩)) := by
  refine ⟨?_, ?_⟩
  · intro h
    simp [fetchLogsBetweenDates, h]
  · intro hstd hbad
    refine ⟨?_, ?_⟩
    · intro c hc
      unfold fetchLogsBetweenDates
      simp only [hstd, if_false, hc]
      cases hre : parseFilter env r with
      | error e => rfl
      | ok regex =>
        simp only
        cases hmin : parseMinimum r (RingBuffer.new LogEvent 500).Size with
        | none => rfl
        | some M =>
          simp only
          cases hid : parseLastSeenId r (windowEnd env r) with
          | none => rfl
          | some v =>
            exfalso
            rcases hbad with ⟨f, err, hf, hp⟩ | ⟨m, hm, hbadm⟩ | ⟨s, hs, hp⟩
            · simp [parseFilter, hf, hp, Except.map] at hre
            · simp only [parseMinimum, hm, RingBuffer.new] at hmin
              rcases hbadm with ha | ⟨v2, ha, hv⟩
              · simp [ha] at hmin
              · simp only [ha] at hmin
                split_ifs at hmin with h1
                · exact h1 (by
                    rcases hv with h | h
                    · left; exact h
                    · right; simpa using h)
            · simp [parseLastSeenId, hs, hp] at hid
    · intro err hc
      unfold fetchLogsBetweenDates
      simp only [hstd, if_false, hc]

/-- Witness of the amended claim C6: a malformed `filter` on a source that is
found. -/
theorem validation_errors_witness :
    fetchLogsBetweenDates (demoEnv [] 0) 0 (paramRequest (some "(") none none) =
      some ⟨400, [], [.lookup]⟩ :=
  ((validation_errors (demoEnv [] 0) 0 (paramRequest (some "(") none none)).2 (by decide)
    (Or.inl ⟨"(", "missing closing )", rfl, rfl⟩)).1 (demoContainer 0) rfl

/-- Counterexample to claim C6 as stated: a malformed `filter` on a source that
does not exist gives status 404, not 400, and the source lookup has been made
before the answer. -/
theorem validation_errors_counterexample :
    missingEnv.ParseRegex "(" = .error "missing closing )" ∧
    ∀ fuel, fetchLogsBetweenDates missingEnv fuel (paramRequest (some "(") none none) =
      some ⟨404, [], [.lookup]⟩ :=
  ⟨rfl, fun _ => rfl⟩

/-- Claim C7, amended. Tail-task outcome handling in `streamLogsForContainers`:
a tail that ends with end-of-data sends exactly one notification, named
`container-stopped`, with the source's id and host; a tail that ends by
cancellation sends nothing and logs nothing; a tail that ends with any other
error logs it and sends nothing; whatever the outcome, the only notification a
tail task can send is its own source's `container-stopped`, and its ending
leaves the session open and the started tails, the written stream and the
coordinator untouched. -/
theorem tail_outcome_handling (container : Container) :
    (∀ err : StreamError, err.isEOF = true →
      sentEvents (streamLogs container (.ok ()) (some err)) =
        [⟨container.ID, "container-stopped", container.Host⟩]) ∧
    (∀ err : StreamError, err.isEOF = false → err.isCanceled = true →
      streamLogs container (.ok ()) (some err) = []) ∧
    (∀ err : StreamError, err.isEOF = false → err.isCanceled = false →
      streamLogs container (.ok ()) (some err) =
        [.logError "unknown error while streaming logs"]) ∧
    (∀ found result ev, ev ∈ sentEvents (streamLogs container found result) →
      ev = ⟨container.ID, "container-stopped", container.Host⟩) ∧
    (∀ regex levels s result s2,
      step regex levels s (.tailEnd container result) = some s2 →
      s2.closed = s.closed ∧ s2.tails = s.tails ∧ s2.written = s.written ∧
        s2.sending = s.sending) := by
  refine ⟨?_, ?_, ?_, ?_, ?_⟩
  · intro err h
    simp [streamLogs, h, sentEvents]
  · intro err h1 h2
    simp [streamLogs, h1, h2]
  · intro err h1 h2
    simp [streamLogs, h1, h2]
  · intro found result ev hev
    unfold streamLogs at hev
    cases found with
    | error e => simp [sentEvents] at hev
    | ok u =>
      cases result with
      | none => simp [sentEvents] at hev
      | some err =>
        simp only at hev
        split_ifs at hev <;> simp [sentEvents] at hev
        exact hev
  · intro regex levels s result s2 h
    simp only [step] at h
    split at h
    · injection h with h
      subst h
      exact ⟨rfl, rfl, rfl, rfl⟩
    · split_ifs at h
      injection h with h
      subst h
      exact ⟨rfl, rfl, rfl, rfl⟩

/-- Witness of the amended claim C7: a tail ending with a connection error logs
it and sends nothing. -/
theorem tail_outcome_handling_witness :
    streamLogs (demoContainer 0) (.ok ()) (some resetError) =
      [.logError "unknown error while streaming logs"] :=
  (tail_outcome_handling (demoContainer 0)).2.2.1 resetError rfl rfl

/-- Counterexample to claim C7 as stated: a tail that ends with an error other
than end-of-data and cancellation sends no `container-stopped` notification. -/
theorem tail_outcome_handling_counterexample :
    resetError.isEOF = false ∧ resetError.isCanceled = false ∧
    sentEvents (streamLogs (demoContainer 0) (.ok ()) (some resetError)) = [] :=
  ⟨rfl, rfl, rfl⟩

theorem step_blocked (regex : Option Regexp) (levels : List String) (s : Session)
    (hs : s.sending.isSome = true) (hfull : eventsCapacity ≤ s.events.length) :
    ∀ m s2, step regex levels s m = some s2 → s2 = s := by
  intro m s2 h
  cases m with
  | tailEnd container result =>
    simp only [step] at h
    cases hsent : sentEvents (streamLogs container (.ok ()) result) with
    | nil =>
      rw [hsent] at h
      injection h with h
      exact h.symm
    | cons e rest =>
      rw [hsent] at h
      simp only [List.length_cons] at h
      split_ifs at h with hle
      omega
  | liveLog e => simp [step, hs] at h
  | newContainer c found => simp [step, hs] at h
  | sendStarted =>
    simp only [step] at h
    split at h
    · simp at h
    · split_ifs at h with hlt
      omega
  | recvEvent => simp [step, hs] at h
  | backfill b => simp [step, hs] at h
  | tick => simp [step, hs] at h
  | cancel => simp [step, hs] at h

theorem run_blocked (regex : Option Regexp) (levels : List String) (s : Session)
    (hs : s.sending.isSome = true) (hfull : eventsCapacity ≤ s.events.length) :
    ∀ moves s2, run regex levels s moves = some s2 → s2 = s := by
  intro moves
  induction moves with
  | nil => intro s2 h; simp [run] at h; exact h.symm
  | cons m rest ih =>
    intro s2 h
    simp only [run] at h
    split at h
    · simp at h
    · rename_i s3 hstep
      have := step_blocked regex levels s hs hfull m s3 hstep
      subst this
      exact ih s2 h

/-- Claim C8, the failing run. A session tails one source; its tail ends with
end-of-data and its `container-stopped` notification is buffered in the
channel `events`; the `select` then takes the notification of a newly
discovered source whose lookup succeeds. The coordinator is now inside its own
send on the full channel: the pending notification is kept, but from this state
no sequence of steps changes anything, so the send never completes, the new
source gets no tail task and no `container-started` is ever written. -/
theorem lifecycle_send_blocks :
    ∃ s,
      run none ["info"] (initialSession [demoContainer 0])
        [.tailEnd (demoContainer 0) (some eofError), .newContainer otherContainer true] =
        some s ∧
      s.events = [⟨"c1", "container-stopped", "host1"⟩] ∧
      s.sending = some otherContainer ∧
      s.tails = [demoContainer 0] ∧
      s.written = [.ping] ∧
      ∀ moves s2, run none ["info"] s moves = some s2 → s2 = s := by
  refine ⟨⟨[⟨"c1", "container-stopped", "host1"⟩], some otherContainer, [demoContainer 0],
    [.ping], false⟩, by decide, rfl, rfl, rfl, rfl, ?_⟩
  exact run_blocked none ["info"] _ rfl (by decide)

theorem levelAllowed_iff (levels : List String) (level : String) :
    levelAllowed levels level = true ↔ level ∈ levels := by
  simp [levelAllowed]

theorem backfillScan_eq (levels : List String) (regex : Regexp) (logs : List LogEvent) :
    ∀ events, backfillScan levels regex logs events =
      events ++ logs.filter (fun e => levelAllowed levels e.Level && regex.Search e) := by
  induction logs with
  | nil => intro events; simp [backfillScan]
  | cons log rest ih =>
    intro events
    unfold backfillScan
    cases hl : levelAllowed levels log.Level <;> cases hr : regex.Search log <;>
      simp [hl, hr, ih, List.filter_cons]

theorem kept_nil_of_no_levels (p : Params) (hev : p.everything = false) (hlv : p.levels = [])
    (events : List LogEvent) : kept p events = [] := by
  unfold kept
  rw [List.filter_eq_nil_iff]
  intro e _ hpush
  have hp : scanEvent p e = .push := by simpa using hpush
  have := ((scanEvent_push_iff p hev e).mp hp).1
  simp [passesFilters, levelAllowed, hlv] at this

theorem fetch_no_levels (env : Env) (fuel : Nat) (r : Request) (resp : Response)
    (hev : r.everything = false) (hlv : r.levels = [])
    (hrun : fetchLogsBetweenDates env fuel r = some resp) : resp.body = [] := by
  by_cases hstd : stdTypesOf r = 0
  · simp only [fetchLogsBetweenDates, hstd, if_true] at hrun
    injection hrun with h; rw [← h]
  · cases hc : env.FindContainer with
    | error e =>
      simp only [fetchLogsBetweenDates, hstd, if_false, hc] at hrun
      injection hrun with h; rw [← h]
    | ok c =>
      cases hre : parseFilter env r with
      | error e =>
        simp only [fetchLogsBetweenDates, hstd, if_false, hc, hre] at hrun
        injection hrun with h; rw [← h]
      | ok regex =>
        cases hmin : parseMinimum r 500 with
        | none =>
          simp only [fetchLogsBetweenDates, hstd, if_false, hc, hre, RingBuffer.new, hmin] at hrun
          injection hrun with h; rw [← h]
        | some M =>
          cases hid : parseLastSeenId r (windowEnd env r) with
          | none =>
            simp only [fetchLogsBetweenDates, hstd, if_false, hc, hre, RingBuffer.new, hmin,
              hid] at hrun
            injection hrun with h; rw [← h]
          | some v =>
            obtain ⟨n, to_⟩ := v
            rw [fetch_valid env fuel r c regex M n to_ hstd hc hre hmin hid] at hrun
            have hpev : (searchParams r regex M n to_ c.Created).everything = false := hev
            rcases fetchLoop_result env _ hpev _ _ _ _ _ _ hrun with
              h500 | ⟨_, hb, _, _⟩ | ⟨_, f, events, _, _, hb, _⟩
            · exact h500.2
            · rw [hb]; rfl
            · rw [hb, kept_nil_of_no_levels _ hpev hlv]
              rfl

/-- Claim C5. Severity stage: the lookup in the set built from the `levels`
parameters succeeds exactly for the members of the set; the range-query loop
skips a record exactly when the structured-only stage, the regular-expression
stage or that lookup rejects it; the backfill scan keeps exactly the records
whose level is in the set and which match the regular expression; the live
loop writes a record exactly when the regular expression (if any) matches and
its level is in the set. And a range request without `everything` and without
`levels` parameter never has a record in its response, whatever the source,
`filter`, `minimum` and `lastSeenId` are; the handler answers such a request
when its window start is less than `2 ^ 62` ns after the source's creation. -/
theorem severity_stage :
    (∀ (levels : List String) (level : String),
      levelAllowed levels level = true ↔ level ∈ levels) ∧
    (∀ (p : Params) (e : LogEvent), p.everything = false →
      (scanEvent p e = .skip ↔
        ((p.onlyComplex = true ∧ e.Message.isString = true) ∨
         (∃ regex, p.regex = some regex ∧ regex.Search e = false) ∨
         e.Level ∉ p.levels))) ∧
    (∀ (levels : List String) (regex : Regexp) (logs events : List LogEvent),
      backfillScan levels regex logs events =
        events ++ logs.filter (fun e => decide (e.Level ∈ levels) && regex.Search e)) ∧
    (∀ (regex : Option Regexp) (levels : List String) (e : LogEvent),
      liveLogCase regex levels e =
        if (∀ re, regex = some re → re.Search e = true) ∧ e.Level ∈ levels then some e
        else none) ∧
    (∀ (env : Env) (r : Request), r.everything = false → r.levels = [] →
      (∀ fuel resp, fetchLogsBetweenDates env fuel r = some resp → resp.body = []) ∧
      ((∀ c, env.FindContainer = .ok c → r.from_ - c.Created < 2 ^ 62) →
        ∃ resp, (∀ fuel, 64 ≤ fuel → fetchLogsBetweenDates env fuel r = some resp) ∧
          resp.body = [])) := by
  refine ⟨levelAllowed_iff, ?_, ?_, ?_, ?_⟩
  · intro p e hev
    unfold scanEvent
    rw [hev]
    simp only [Bool.false_eq_true, if_false, ← levelAllowed_iff]
    cases p.onlyComplex <;> cases e.Message.isString <;> cases hr : p.regex <;>
      cases levelAllowed p.levels e.Level <;> simp <;> split_ifs <;> simp_all
  · intro levels regex logs events
    rw [backfillScan_eq]
    congr 1
    apply List.filter_congr
    intro e _
    simp [levelAllowed]
  · intro regex levels e
    unfold liveLogCase
    simp only [← levelAllowed_iff]
    cases regex with
    | none => cases levelAllowed levels e.Level <;> simp
    | some re =>
      cases h1 : re.Search e <;> cases h2 : levelAllowed levels e.Level <;> simp [h1, h2]
  · intro env r hev hlv
    refine ⟨fun fuel resp h => fetch_no_levels env fuel r resp hev hlv h, ?_⟩
    intro hrange
    obtain ⟨resp, hresp⟩ := fetch_total env r (fun _ c hc => hrange c hc)
    exact ⟨resp, hresp, fetch_no_levels env 64 r resp hev hlv (hresp 64 (Nat.le_refl 64))⟩

set_option maxRecDepth 100000 in
/-- Witness of claim C5: a source with ten `info` records queried without any
`levels` parameter answers with an empty body. -/
theorem severity_stage_witness :
    ∃ resp, (∀ fuel, 64 ≤ fuel →
        fetchLogsBetweenDates (demoEnv tenRecords 0) fuel
          (plainRequest 0 (5 * Second) (some "3") []) = some resp) ∧
      resp.body = [] :=
  (severity_stage.2.2.2.2 (demoEnv tenRecords 0) (plainRequest 0 (5 * Second) (some "3") [])
    rfl rfl).2 (fun c hc => by
      have h : c = demoContainer 0 := by
        have h2 : (demoEnv tenRecords 0).FindContainer = .ok (demoContainer 0) := rfl
        rw [h2] at hc
        injection hc with hc
        exact hc.symm
      rw [h]
      decide)

theorem roundMatches_append (env : LiveEnv) (levels : List String) (regex : Regexp)
    (stdTypes : Nat) (qs1 qs2 : List WindowQuery) :
    roundMatches env levels regex stdTypes (qs1 ++ qs2) =
      roundMatches env levels regex stdTypes qs1 ++ roundMatches env levels regex stdTypes qs2 := by
  induction qs1 with
  | nil => simp [roundMatches]
  | cons q rest ih => simp [roundMatches, ih]

theorem backfillContainers_spec (env : LiveEnv) (levels : List String) (regex : Regexp)
    (stdTypes : Nat) (to_ delta : Int) (containers : List Container) :
    ∀ st st2, backfillContainers env levels regex stdTypes to_ delta containers st = some st2 →
      st2.queries = st.queries ++ roundQueries env to_ delta containers ∧
      st2.events = st.events ++
        roundMatches env levels regex stdTypes (roundQueries env to_ delta containers) ∧
      st2.stillRunning = (st.stillRunning || !(roundQueries env to_ delta containers).isEmpty) := by
  induction containers with
  | nil =>
    intro st st2 h
    simp only [backfillContainers, Option.some.injEq] at h
    subst h
    simp [roundQueries, roundMatches]
  | cons c rest ih =>
    intro st st2 h
    unfold backfillContainers at h
    unfold roundQueries
    cases hf : env.FindContainer c with
    | error e => rw [hf] at h; simp at h
    | ok found =>
      rw [hf] at h
      simp only at h ⊢
      by_cases hlt : to_ < found.Created
      · simp only [hlt, if_true] at h ⊢
        exact ih st st2 h
      · simp only [hlt, if_false] at h ⊢
        cases hq : env.LogsBetweenDates c (timeAdd to_ delta) to_ stdTypes with
        | error e => rw [hq] at h; simp at h
        | ok logs =>
          rw [hq] at h
          simp only at h
          obtain ⟨h1, h2, h3⟩ := ih _ st2 h
          simp only at h1 h2 h3
          refine ⟨?_, ?_, ?_⟩
          · rw [h1]; simp [timeAdd]
          · rw [h2, backfillScan_eq]
            simp only [timeAdd] at hq
            simp [roundMatches, hq]
          · rw [h3]; simp

theorem roundQueries_mem (env : LiveEnv) (to_ delta : Int) (containers : List Container)
    (q : WindowQuery) (hq : q ∈ roundQueries env to_ delta containers) :
    q.container ∈ containers ∧ q.from_ = to_ + delta ∧ q.to_ = to_ ∧
      ∃ found, env.FindContainer q.container = .ok found ∧ found.Created ≤ to_ := by
  induction containers with
  | nil => simp [roundQueries] at hq
  | cons c rest ih =>
    unfold roundQueries at hq
    cases hf : env.FindContainer c with
    | error e =>
      rw [hf] at hq
      obtain ⟨h1, h2⟩ := ih hq
      exact ⟨List.mem_cons_of_mem _ h1, h2⟩
    | ok found =>
      rw [hf] at hq
      simp only at hq
      by_cases hlt : to_ < found.Created
      · simp only [hlt, if_true] at hq
        obtain ⟨h1, h2⟩ := ih hq
        exact ⟨List.mem_cons_of_mem _ h1, h2⟩
      · simp only [hlt, if_false, List.mem_cons] at hq
        rcases hq with rfl | hq
        · exact ⟨List.mem_cons_self _ _, rfl, rfl, found, hf, by omega⟩
        · obtain ⟨h1, h2⟩ := ih hq
          exact ⟨List.mem_cons_of_mem _ h1, h2⟩

theorem mem_roundQueries (env : LiveEnv) (to_ delta : Int) (containers : List Container)
    (c found : Container) (hc : c ∈ containers) (hf : env.FindContainer c = .ok found)
    (hle : found.Created ≤ to_) :
    (⟨c, to_ + delta, to_⟩ : WindowQuery) ∈ roundQueries env to_ delta containers := by
  induction containers with
  | nil => simp at hc
  | cons d rest ih =>
    unfold roundQueries
    rcases List.mem_cons.mp hc with rfl | hc2
    · rw [hf]
      have : ¬ to_ < found.Created := by omega
      simp [this]
    · cases hd : env.FindContainer d with
      | error e => exact ih hc2
      | ok fd =>
        simp only
        split_ifs
        · exact ih hc2
        · exact List.mem_cons_of_mem _ (ih hc2)

theorem backfillLoop_round (env : LiveEnv) (levels : List String) (regex : Regexp)
    (stdTypes : Nat) (k : Nat) :
    ∀ (fuel : Nat) (minimum delta to_ : Int) (round : Round),
      delta < 0 → -(2 ^ 63) ≤ delta * 2 ^ k →
      (backfillLoop env levels regex stdTypes fuel minimum delta to_)[k]? = some round →
      round.to_ = to_ + delta * (2 ^ k - 1) ∧ round.delta = delta * 2 ^ k ∧
      round.queries = roundQueries env round.to_ round.delta env.existingContainers ∧
      round.queries ≠ [] ∧
      round.sent = roundBatch env levels regex stdTypes round.queries := by
  induction k with
  | zero =>
    intro fuel minimum delta to_ round _ _ h
    cases fuel with
    | zero => simp [backfillLoop] at h
    | succ fuel =>
      unfold backfillLoop at h
      split_ifs at h with hmin
      · cases hb : backfillContainers env levels regex stdTypes to_ delta env.existingContainers
            ⟨[], false, []⟩ with
        | none => rw [hb] at h; simp at h
        | some st =>
          rw [hb] at h
          simp only at h
          obtain ⟨h1, h2, h3⟩ := backfillContainers_spec env levels regex stdTypes to_ delta _ _ _ hb
          simp only [List.nil_append, Bool.false_or] at h1 h2 h3
          split_ifs at h with hsr
          · simp at h
          · simp only [List.getElem?_cons_zero, Option.some.injEq] at h
            subst h
            simp only [pow_zero, sub_self, mul_zero, add_zero, mul_one, true_and]
            refine ⟨h1, ?_, ?_⟩
            · intro hnil
              rw [h1] at hnil
              rw [hnil] at h3
              simp [h3] at hsr
            · unfold roundBatch
              rw [h2, h1]
      · simp at h
  | succ k ih =>
    intro fuel minimum delta to_ round hneg hrange h
    cases fuel with
    | zero => simp [backfillLoop] at h
    | succ fuel =>
      unfold backfillLoop at h
      split_ifs at h with hmin
      · cases hb : backfillContainers env levels regex stdTypes to_ delta env.existingContainers
            ⟨[], false, []⟩ with
        | none => rw [hb] at h; simp at h
        | some st =>
          rw [hb] at h
          simp only at h
          split_ifs at h with hsr
          · simp at h
          · simp only [List.getElem?_cons_succ] at h
            have hpow : (0 : Int) < 2 ^ k := by positivity
            have hd2 : -(2 ^ 63) ≤ delta * 2 := by
              have : delta * 2 ^ (k + 1) = delta * 2 * 2 ^ k := by ring
              rw [this] at hrange
              nlinarith
            have hw : wrap64 (delta * 2) = delta * 2 :=
              wrap64_of_range _ hd2 (by omega)
            rw [hw] at h
            have hr2 : -(2 ^ 63) ≤ delta * 2 * 2 ^ k := by
              have : delta * 2 ^ (k + 1) = delta * 2 * 2 ^ k := by ring
              rw [← this]; exact hrange
            obtain ⟨h1, h2, h3⟩ := ih fuel _ (delta * 2) (timeAdd to_ delta) round (by omega) hr2 h
            refine ⟨?_, ?_, h3⟩
            · rw [h1]; simp only [timeAdd]; ring
            · rw [h2]; ring
      · simp at h

theorem sortByTimestamp_sorted (events : List LogEvent) :
    List.Sorted (fun a b : LogEvent => a.Timestamp ≤ b.Timestamp) (sortByTimestamp events) := by
  haveI : IsTotal LogEvent (fun a b => a.Timestamp ≤ b.Timestamp) :=
    ⟨fun a b => le_total a.Timestamp b.Timestamp⟩
  haveI : IsTrans LogEvent (fun a b => a.Timestamp ≤ b.Timestamp) :=
    ⟨fun _ _ _ h1 h2 => le_trans h1 h2⟩
  exact List.sorted_insertionSort _ events

theorem sortByTimestamp_perm (events : List LogEvent) :
    (sortByTimestamp events).Perm events :=
  List.perm_insertionSort _ events

theorem backfill_round_index (env : LiveEnv) (levels : List String) (regex : Regexp)
    (stdTypes : Nat) (now : Int) (fuel k : Nat) (round : Round)
    (hrange : ∀ c ∈ env.existingContainers, ∀ found, env.FindContainer c = .ok found →
      now - found.Created < 2 ^ 62)
    (hround : (backfillTask env levels regex stdTypes now fuel)[k]? = some round) :
    k ≤ 29 := by
  by_contra hk
  have hlen : k < (backfillTask env levels regex stdTypes now fuel).length := by
    obtain ⟨h, _⟩ := List.getElem?_eq_some.mp hround
    exact h
  cases h29 : (backfillTask env levels regex stdTypes now fuel)[29]? with
  | none =>
    have := List.getElem?_eq_none_iff.mp h29
    omega
  | some r29 =>
    unfold backfillTask at h29
    obtain ⟨h1, _, h3, h4, _⟩ := backfillLoop_round env levels regex stdTypes 29 fuel 50
      (-10 * Second) now r29 (by unfold Second; norm_num) (by unfold Second; norm_num) h29
    obtain ⟨q, hq⟩ := List.exists_mem_of_ne_nil _ h4
    rw [h3] at hq
    obtain ⟨hc, _, _, found, hf, hle⟩ := roundQueries_mem env _ _ _ q hq
    have := hrange q.container hc found hf
    rw [h1] at hle
    unfold Second at hle
    norm_num at hle
    omega

/-- The backfill rounds inside the range where the doubled step cannot
overflow: with `sort.Slice` returning a timestamp-ordered permutation and the
known sources created less than `2 ^ 62` ns before `now`, every round `k` that
runs to completion starts with the window end `now - 10s * (2 ^ k - 1)` and
fetches, for every known source whose creation is not after that instant and
for no other, the window
`[now - 10s * (2 ^ (k + 1) - 1), now - 10s * (2 ^ k - 1))`, which ends where the
window of the round before starts; the batch it sends is the records of those
windows whose level is in the allow-set and which match the regular
expression, sorted ascending by timestamp, and it is sent only when it is
non-empty. -/
theorem backfill_rounds_in_range (env : LiveEnv) (levels : List String) (regex : Regexp)
    (stdTypes : Nat) (now : Int) (fuel k : Nat) (round : Round)
    (hsort : ∀ l, List.Sorted (fun a b : LogEvent => a.Timestamp ≤ b.Timestamp)
      (env.sortSlice l) ∧ (env.sortSlice l).Perm l)
    (hrange : ∀ c ∈ env.existingContainers, ∀ found, env.FindContainer c = .ok found →
      now - found.Created < 2 ^ 62)
    (hround : (backfillTask env levels regex stdTypes now fuel)[k]? = some round) :
    round.to_ = now - 10 * Second * (2 ^ k - 1) ∧
    round.queries =
      roundQueries env (now - 10 * Second * (2 ^ k - 1)) (-(10 * Second * 2 ^ k))
        env.existingContainers ∧
    (∀ c ∈ env.existingContainers, ∀ found, env.FindContainer c = .ok found →
      ((⟨c, now - 10 * Second * (2 ^ (k + 1) - 1), now - 10 * Second * (2 ^ k - 1)⟩ :
          WindowQuery) ∈ round.queries ↔
        found.Created ≤ now - 10 * Second * (2 ^ k - 1))) ∧
    (∀ q ∈ round.queries, q.container ∈ env.existingContainers ∧
      q.from_ = now - 10 * Second * (2 ^ (k + 1) - 1) ∧
      q.to_ = now - 10 * Second * (2 ^ k - 1)) ∧
    (∃ batch, List.Sorted (fun a b : LogEvent => a.Timestamp ≤ b.Timestamp) batch ∧
      batch.Perm (roundMatches env levels regex stdTypes round.queries) ∧
      round.sent = if batch = [] then none else some batch) := by
  have hk := backfill_round_index env levels regex stdTypes now fuel k round hrange hround
  have hpow : (2 : Int) ^ k ≤ 2 ^ 29 := pow_le_pow_right₀ (by norm_num) hk
  have hpos : (0 : Int) < 2 ^ k := by positivity
  unfold backfillTask at hround
  obtain ⟨h1, h2, h3, _, h5⟩ := backfillLoop_round env levels regex stdTypes k fuel 50
    (-10 * Second) now round (by unfold Second; norm_num)
    (by unfold Second; norm_num; nlinarith) hround
  have hto : round.to_ = now - 10 * Second * (2 ^ k - 1) := by rw [h1]; ring
  have hdl : round.delta = -(10 * Second * 2 ^ k) := by rw [h2]; ring
  have hfrom : now - 10 * Second * (2 ^ k - 1) + -(10 * Second * 2 ^ k) =
      now - 10 * Second * (2 ^ (k + 1) - 1) := by ring
  rw [hto, hdl] at h3
  refine ⟨hto, h3, ?_, ?_, ?_⟩
  · intro c hc found hf
    constructor
    · intro hq
      rw [h3] at hq
      obtain ⟨_, _, _, found2, hf2, hle⟩ := roundQueries_mem env _ _ _ _ hq
      simp only at hf2
      rw [hf] at hf2
      injection hf2 with hf2
      rw [hf2]
      exact hle
    · intro hle
      rw [h3, ← hfrom]
      exact mem_roundQueries env _ _ _ c found hc hf hle
  · intro q hq
    rw [h3] at hq
    obtain ⟨hc, hf, ht, _⟩ := roundQueries_mem env _ _ _ q hq
    exact ⟨hc, by rw [hf, hfrom], ht⟩
  · refine ⟨env.sortSlice (roundMatches env levels regex stdTypes round.queries),
      (hsort _).1, (hsort _).2, ?_⟩
    rw [h5]
    unfold roundBatch sendIfAny
    by_cases hnil : env.sortSlice (roundMatches env levels regex stdTypes round.queries) = []
    · simp [hnil]
    · have : (env.sortSlice (roundMatches env levels regex stdTypes round.queries)).length > 0 :=
        List.length_pos.mpr hnil
      simp [hnil, this]

set_option maxRecDepth 100000 in
/-- An instance of the backfill rounds inside the range: round 1 of a backfill
started at 25s over a source created at instant 0 fetches `[-5s, 15s)` and
sends the five matching records in timestamp order. -/
theorem backfill_rounds_in_range_witness :
    demoRound.to_ = 25 * Second - 10 * Second * (2 ^ 1 - 1) ∧
    demoRound.queries =
      roundQueries demoLiveEnv (25 * Second - 10 * Second * (2 ^ 1 - 1))
        (-(10 * Second * 2 ^ 1)) demoLiveEnv.existingContainers ∧
    (∀ q ∈ demoRound.queries, q.container ∈ demoLiveEnv.existingContainers ∧
      q.from_ = 25 * Second - 10 * Second * (2 ^ (1 + 1) - 1) ∧
      q.to_ = 25 * Second - 10 * Second * (2 ^ 1 - 1)) ∧
    (∃ batch, List.Sorted (fun a b : LogEvent => a.Timestamp ≤ b.Timestamp) batch ∧
      batch.Perm (roundMatches demoLiveEnv ["info"] evenIds 1 demoRound.queries) ∧
      demoRound.sent = if batch = [] then none else some batch) :=
  have h := backfill_rounds_in_range demoLiveEnv ["info"] evenIds 1 (25 * Second) 3 1 demoRound
    (fun l => ⟨sortByTimestamp_sorted l, sortByTimestamp_perm l⟩)
    (fun c hc found hf => by
      have h1 : c = demoContainer 0 := by simpa [demoLiveEnv] using hc
      have h2 : found = c := by
        have h3 : demoLiveEnv.FindContainer c = .ok c := rfl
        rw [h3] at hf
        injection hf with hf
        exact hf.symm
      rw [h2, h1]
      decide)
    (by decide)
  ⟨h.1, h.2.1, h.2.2.2.1, h.2.2.2.2⟩

theorem fetchLoop_stuck (env : Env) (p : Params) (hev : p.everything = false) (F : Int)
    (hF : ¬ F < p.Created) (hM : 0 ≤ p.minimum)
    (hq : env.LogsBetweenDates F p.to_ p.stdTypes = .ok []) (size : Nat) (n : Nat) :
    ∀ effects, fetchLoop env p n ⟨size, []⟩ F 0 [] effects = none := by
  induction n with
  | zero => intro effects; rfl
  | succ n ih =>
    intro effects
    have h1 : ¬ (((⟨size, []⟩ : RingBuffer LogEvent).Len : Int) > p.minimum) := by
      simp only [RingBuffer.Len, List.length_nil]
      omega
    have hd : (p.everything || decide (F < p.Created)) = false := by simp [hev, hF]
    rw [fetchLoop_widen _ _ _ _ _ _ _ _ h1 [] hq hd]
    have hw : wrap64 (-0) = 0 := by decide
    have hw2 : wrap64 (0 * 2) = 0 := by decide
    simp only [scanEvents, RingBuffer.Clear, timeAdd, hw, hw2, add_zero]
    exact ih _

/-- Claim C1, the failing request. A source created 2023-11-14T22:13:20Z holds
no record and answers every query; the request has no `minimum` (so `M = 0`),
no `everything` and no cursor, and its window is `2 ^ 62` ns long and starts
`3 * 2 ^ 62` ns after the creation. The step `delta` is `2 ^ 62`; doubling it
wraps to `-2 ^ 63`, doubling again gives 0, and by then `from` is the creation
instant, which is not before the creation: the loop repeats the same query and
the handler gives no response, whatever the number of iterations. -/
theorem minimum_count_overflow :
    (∀ f t s, (demoEnv [] overflowCreated).LogsBetweenDates f t s = .ok []) ∧
    parseMinimum overflowRequest 500 = some 0 ∧
    overflowRequest.everything = false ∧ overflowRequest.lastSeenId = none ∧
    initialDelta overflowRequest = 2 ^ 62 ∧
    wrap64 (2 ^ 62 * 2) = -(2 ^ 63) ∧ wrap64 (-(2 ^ 63) * 2) = 0 ∧
    ∀ fuel, fetchLogsBetweenDates (demoEnv [] overflowCreated) fuel overflowRequest = none := by
  refine ⟨fun _ _ _ => rfl, by decide, rfl, rfl, by decide, by decide, by decide, ?_⟩
  intro fuel
  rw [fetch_valid (demoEnv [] overflowCreated) fuel overflowRequest (demoContainer overflowCreated)
    none 0 0 (overflowCreated + 4 * 2 ^ 62) (by decide) rfl rfl (by decide) (by decide)]
  have hd0 : initialDelta overflowRequest = 2 ^ 62 := by decide
  have hs0 : windowStart overflowRequest = overflowCreated + 3 * 2 ^ 62 := by decide
  rw [hd0, hs0]
  set p := searchParams overflowRequest none 0 0 (overflowCreated + 4 * 2 ^ 62)
    (demoContainer overflowCreated).Created with hp
  have hpev : p.everything = false := rfl
  have hq : ∀ f, (demoEnv [] overflowCreated).LogsBetweenDates f p.to_ p.stdTypes = .ok [] :=
    fun _ => rfl
  have h1 : ∀ size : Nat, ¬ (((⟨size, []⟩ : RingBuffer LogEvent).Len : Int) > p.minimum) := by
    intro size
    show ¬ ((0 : Nat) : Int) > 0
    decide
  cases fuel with
  | zero => rfl
  | succ n =>
    have hdn1 : (p.everything || decide (overflowCreated + 3 * 2 ^ 62 < p.Created)) = false := by
      decide
    rw [show RingBuffer.new LogEvent 500 = ⟨500, []⟩ from rfl,
      fetchLoop_widen _ _ _ _ _ _ _ _ (h1 500) [] (hq _) hdn1]
    have e1 : timeAdd (overflowCreated + 3 * 2 ^ 62) (wrap64 (-(2 ^ 62))) =
        overflowCreated + 2 ^ 63 := by decide
    have e2 : wrap64 (2 ^ 62 * 2) = -(2 ^ 63) := by decide
    simp only [scanEvents, RingBuffer.Clear, e1, e2]
    cases n with
    | zero => rfl
    | succ m =>
      have hdn2 : (p.everything || decide (overflowCreated + 2 ^ 63 < p.Created)) = false := by
        decide
      rw [fetchLoop_widen _ _ _ _ _ _ _ _ (h1 500) [] (hq _) hdn2]
      have e3 : timeAdd (overflowCreated + 2 ^ 63) (wrap64 (-(-(2 ^ 63)))) =
          overflowCreated := by decide
      have e4 : wrap64 (-(2 ^ 63) * 2) = 0 := by decide
      simp only [scanEvents, RingBuffer.Clear, e3, e4]
      exact fetchLoop_stuck _ p hpev overflowCreated (by decide) (by decide) (hq _) 500 m _

/-- The normal path of a source-started notification: with the coordinator at
the `select` and the channel `events` empty, the notification of a newly
discovered source whose lookup succeeds is followed by the coordinator's send,
the start of one tail task for the source and, once the `select` takes the
buffered notification, one `container-event` named `container-started` with
the source's id and host. -/
theorem lifecycle_started_when_room (regex : Option Regexp) (levels : List String)
    (s : Session) (container : Container)
    (hs : s.sending = none) (hc : s.closed = false) (he : s.events = []) :
    run regex levels s [.newContainer container true, .sendStarted, .recvEvent] =
      some { s with
        tails := s.tails ++ [container],
        written := s.written ++
          [.containerEvent ⟨container.ID, "container-started", container.Host⟩] } := by
  simp [run, step, hs, hc, he, eventsCapacity]

set_option maxRecDepth 100000 in
/-- Claim C9, the failing round. A live session with a `filter` starts its
backfill task 2026-11-02T00:51:27Z over one known source whose creation
instant is the zero time; the source is found, answers every fetch and holds
no record, so `minimum` stays 50 and the rounds go on. Rounds 0 to 29 double
the step down to `-10s * 2 ^ 29`; the next `delta *= 2` wraps the int64 to
`+7709325833709551616`. Round 30 runs to completion with the window end
`now - 10s * (2 ^ 30 - 1)` and fetches
`[-1234511709290448384, -8943837543000000000)`, whose start lies after its
end, and not `[now - 10s * (2 ^ 31 - 1), now - 10s * (2 ^ 30 - 1))`, which
starts at `-19681255783000000000`. -/
theorem backfill_round_overflow :
    zeroSourceEnv.FindContainer zeroSource = .ok zeroSource ∧
    zeroSource.Created ≤ overflowNow - 10 * Second * (2 ^ 30 - 1) ∧
    wrap64 (-10 * Second * 2 ^ 29 * 2) = 7709325833709551616 ∧
    (backfillTask zeroSourceEnv ["info"] evenIds 1 overflowNow 31)[30]? =
      some ⟨-8943837543000000000, 7709325833709551616,
        [⟨zeroSource, -1234511709290448384, -8943837543000000000⟩], none⟩ ∧
    overflowNow - 10 * Second * (2 ^ 30 - 1) = -8943837543000000000 ∧
    overflowNow - 10 * Second * (2 ^ (30 + 1) - 1) = -19681255783000000000 ∧
    (-1234511709290448384 : Int) ≠ overflowNow - 10 * Second * (2 ^ (30 + 1) - 1) :=
  ⟨rfl, by decide, by decide, by decide, by decide, by decide, by decide⟩

end Dozzle
